/-
  Verification of the Deep Sea Shell (DSS) scripting engine.

  Shallow embedding of the DSS core pipeline:
    * `utils::string_split` (src/source/utils.h)
    * `utils::string_replace` (modelled from the spec; the current utils
      header is not among the provided sources)
    * `DSS::var_t::append_data`, `DSS::vars_t` (src/dss/runtime.h)
    * `lang::create_alias`, `lang::use_alias`, the `lang` handlers and
      definers (src/unnamed/part_001, the current lang.h)
    * `DSS::command_t::attempt_parse_and_exec`, `DSS::executor_t`
      (`direct_exec`, `auto_preprocessors`, `command_pass`, `exec_task`,
      `exec_all_tasks`, `exec`) (src/unnamed/part_003, the current DSS.cpp)
    * `DSS::environment_t::unique_runid` / `spawn_executor`
      (src/dss/runtime.h)

  Strings are represented as `List Char`.  Machine integers: the
  `size_t` return codes are `Nat`; the (signed 64-bit) argument bounds
  are `Int`; the `std::int32_t` conversion applied to the argument count
  in `attempt_parse_and_exec` is modelled exactly (two's-complement wrap,
  well defined in C++20, the standard configured in CMakeLists.txt).
-/
import Mathlib

namespace DSSModel

/-- Strings of the C++ program, as lists of characters. -/
abbrev Str := List Char

/-- Shorthand to write model strings with Lean string literals. -/
def str (s : String) : Str := s.toList

/-- `utils::string_split` from src/source/utils.h, specialised to the
single-character delimiters used at every call site
(`TOKEN_DELIM = " "`, `MULTILINE_DELIM = "\n"`).  The C++ loop repeatedly
finds the first occurrence of the delimiter, pushes the segment before it
into `tokens`, and erases that segment together with the delimiter from
the by-reference argument `s`; after the loop the remaining `s` (the
final segment) is pushed as the last token.  This function returns the
token list; the mutation the call leaves behind in `s` is
`string_split_residue` below. -/
def string_split (delim : Char) : Str → List Str
  | [] => [[]]
  | c :: rest =>
    if c = delim then
      [] :: string_split delim rest
    else
      match string_split delim rest with
      | [] => [[c]]
      | t :: ts => (c :: t) :: ts

/-- The value the by-reference argument of `utils::string_split` holds
after the call: every consumed segment and its delimiter have been
erased, so the string equals its final segment. -/
def string_split_residue (delim : Char) (s : Str) : Str :=
  (string_split delim s).getLastD []

theorem string_split_ne_nil (delim : Char) (s : Str) :
    string_split delim s ≠ [] := by
  induction s with
  | nil => simp [string_split]
  | cons c rest ih =>
    simp only [string_split]
    split
    · simp
    · cases h : string_split delim rest with
      | nil => simp
      | cons t ts => simp

theorem string_split_head_residue_nil (delim : Char) :
    string_split delim [] = [[]] := rfl

theorem intercalate_cons_of_ne_nil (sep x : Str) (l : List Str) (h : l ≠ []) :
    List.intercalate sep (x :: l) = x ++ sep ++ List.intercalate sep l := by
  cases l with
  | nil => contradiction
  | cons y zs => simp [List.intercalate, List.intersperse]

/-- The token list rebuilt with the delimiter gives back the input:
the split loses no characters. -/
theorem intercalate_string_split (delim : Char) (s : Str) :
    List.intercalate [delim] (string_split delim s) = s := by
  induction s with
  | nil => simp [string_split, List.intercalate]
  | cons c rest ih =>
    simp only [string_split]
    split
    · rename_i hc
      rw [intercalate_cons_of_ne_nil _ _ _ (string_split_ne_nil delim rest), ih, hc]
      simp
    · cases h : string_split delim rest with
      | nil => exact absurd h (string_split_ne_nil delim rest)
      | cons t ts =>
        rw [h] at ih
        cases ts with
        | nil =>
          simp only [List.intercalate, List.intersperse, List.flatten] at ih ⊢
          simpa using ih
        | cons t' ts' =>
          rw [intercalate_cons_of_ne_nil _ _ _ (by simp)] at ih ⊢
          simp [← ih]

/-- No token produced by the split contains the delimiter. -/
theorem string_split_no_delim (delim : Char) (s : Str) :
    ∀ t ∈ string_split delim s, delim ∉ t := by
  induction s with
  | nil => simp [string_split]
  | cons c rest ih =>
    simp only [string_split]
    split
    · intro t ht
      rcases List.mem_cons.mp ht with h | h
      · subst h; simp
      · exact ih t h
    · rename_i hc
      cases h : string_split delim rest with
      | nil => exact absurd h (string_split_ne_nil delim rest)
      | cons t ts =>
        intro u hu
        rcases List.mem_cons.mp hu with h' | h'
        · subst h'
          intro hmem
          rcases List.mem_cons.mp hmem with h'' | h''
          · exact hc h''.symm
          · exact (ih t (h ▸ List.mem_cons_self t ts)) h''
        · exact ih u (h ▸ List.mem_cons_of_mem t h')

/-- A string containing the delimiter splits into at least two tokens. -/
theorem string_split_length_ge_two (delim : Char) (s : Str)
    (h : delim ∈ s) : 2 ≤ (string_split delim s).length := by
  induction s with
  | nil => simp at h
  | cons c rest ih =>
    simp only [string_split]
    split
    · have := List.length_pos.mpr (string_split_ne_nil delim rest)
      simp
      omega
    · rename_i hc
      rcases List.mem_cons.mp h with h' | h'
      · exact absurd h'.symm hc
      · cases hs : string_split delim rest with
        | nil => exact absurd hs (string_split_ne_nil delim rest)
        | cons t ts =>
          have := ih h'
          rw [hs] at this
          simpa using this

/-- The residue (the mutated by-reference string) is the final token. -/
theorem string_split_residue_getLast (delim : Char) (s : Str) :
    string_split_residue delim s = (string_split delim s).getLastD [] := rfl

theorem getLastD_mem {α : Type} :
    ∀ (l : List α) (d : α), l ≠ [] → l.getLastD d ∈ l := by
  intro l
  induction l with
  | nil => intro d h; contradiction
  | cons x xs ih =>
    intro d _
    rw [List.getLastD_cons]
    cases hxs : xs with
    | nil => simp [List.getLastD]
    | cons y ys => exact List.mem_cons_of_mem x (hxs ▸ ih x (by simp [hxs]))

/-- The residue never contains the delimiter. -/
theorem string_split_residue_no_delim (delim : Char) (s : Str) :
    delim ∉ string_split_residue delim s := by
  exact string_split_no_delim delim s _
    (getLastD_mem _ _ (string_split_ne_nil delim s))

/-- Modelled from the spec: `utils::string_replace`.  The current
`dss_utils` header is not among the provided sources; only its callers
are (`lang::func::alias`).  Spec §4.7: "for each alias, replaces every
literal occurrence of (deref-marker + id) in the script with the alias's
value, mutating the script in place".  Occurrences are replaced left to
right, with the scan resuming after the inserted replacement text.
Inner loop: `replaceGo` handles a non-empty pattern `p :: ps`.

The structural recursion is driven by a fuel argument so that the
definition evaluates inside the kernel; every step of the scan consumes
at least one character, so fuel `s.length` always suffices — the
fuel-exhausted row can only ever be reached with `s = []`, where it
returns `s` unchanged exactly like the `[]` row
(see `replaceGo_fuel_irrel`). -/
def replaceGo (p : Char) (ps rep : Str) : Nat → Str → Str
  | _, [] => []
  | 0, s => s
  | fuel + 1, c :: rest =>
    if (p :: ps).isPrefixOf (c :: rest) then
      rep ++ replaceGo p ps rep fuel (rest.drop ps.length)
    else
      c :: replaceGo p ps rep fuel rest

theorem replaceGo_fuel_irrel (p : Char) (ps rep : Str) :
    ∀ (fuel : Nat) (s : Str), s.length ≤ fuel →
      replaceGo p ps rep fuel s = replaceGo p ps rep s.length s := by
  intro fuel
  induction fuel using Nat.strong_induction_on with
  | _ fuel ih =>
    intro s hs
    match fuel, s with
    | _, [] => simp [replaceGo]
    | 0, c :: rest => simp at hs
    | fuel + 1, c :: rest =>
      simp only [List.length_cons] at hs ⊢
      simp only [replaceGo]
      split
      · have hd : (rest.drop ps.length).length ≤ rest.length := by
          simp only [List.length_drop]; omega
        rw [ih fuel (by omega) _ (by omega),
          ih rest.length (by omega) _ hd]
      · rw [ih fuel (by omega) _ (by omega),
          ih rest.length (by omega) _ (by omega)]

/-- Modelled from the spec: `utils::string_replace` — see `replaceGo`.
An empty pattern is never passed by the program (the pattern is always
the deref marker `$` followed by an alias id). -/
def string_replace (pat rep s : Str) : Str :=
  match pat with
  | [] => s
  | p :: ps => replaceGo p ps rep s.length s

example : string_replace (str "$A") (str "x") (str "out $A!") = str "out x!" := by decide
example : string_replace (str "$AB") (str "y") (str "$A$AB") = str "$Ay" := by decide
example : string_split '\n' (str "a b\nc\n") = [str "a b", str "c", str ""] := by decide
example : string_split_residue '\n' (str "a b\nc d") = str "c d" := by decide
example : string_split ' ' (str "out hello") = [str "out", str "hello"] := by decide

/-! ## Values, variables and the alias table

`DSS::var_t<std::any>` stores a list of `std::any` values.  In this
program exactly two payload types are ever stored (see
`lang::use_alias`, which appends `std::string`s, and
`lang::create_alias`, which appends `lang::alias_t`s), so the `std::any`
cell is modelled as a closed sum. -/

/-- `lang::alias_t` (src/unnamed/part_001 lines 48-65). -/
structure alias_t where
  id : Str
  value : Str
deriving DecidableEq, Repr

/-- A `std::any` cell as stored in a DSS variable. -/
inductive anyval
  | strv (s : Str)
  | aliasv (a : alias_t)
deriving DecidableEq, Repr

/-- `std::any_cast<std::string>`, returning `none` where the C++ throws
`std::bad_any_cast`. -/
def cast_str : anyval → Option Str
  | .strv s => some s
  | .aliasv _ => none

/-- `std::any_cast<lang::alias_t>`, returning `none` where the C++
throws `std::bad_any_cast`. -/
def cast_alias : anyval → Option alias_t
  | .aliasv a => some a
  | .strv _ => none

/-- The scan loop of `DSS::var_t::append_data` (src/dss/runtime.h lines
191-221).  The C++ walks `m_data` in order; `std::any_cast<A>` of an
element holding a different type throws `bad_any_cast` and the catch
block `return`s, aborting the whole call (result `none` here); an
element equal to `what` sets `found` and the loop continues.  `some
found` is the state of the `found` flag when the loop runs to the end. -/
def append_data_loop {α : Type} [DecidableEq α] (cast : anyval → Option α)
    (what : α) : List anyval → Bool → Option Bool
  | [], found => some found
  | e :: rest, found =>
    match cast e with
    | none => none
    | some comp =>
      if comp = what then append_data_loop cast what rest true
      else append_data_loop cast what rest found

/-- `DSS::var_t::append_data` (src/dss/runtime.h lines 191-221),
returning the new contents of `m_data`: after the scan the value is
pushed only when the loop ran to completion with `found` still false;
an early `return` from the catch block (`none`) leaves the data
unchanged and signals nothing (the member function returns `void`). -/
def append_data {α : Type} [DecidableEq α] (cast : anyval → Option α)
    (inj : α → anyval) (data : List anyval) (what : α) : List anyval :=
  match append_data_loop cast what data false with
  | none => data
  | some true => data
  | some false => data ++ [inj what]

/-- One `DSS::var_t<std::any>` (src/dss/runtime.h lines 154-233). -/
structure var_t where
  id : Str
  data : List anyval
deriving DecidableEq, Repr

/-- `DSS::vars_t::m_vars` (src/dss/runtime.h lines 237-335). -/
abbrev vars_t := List var_t

/-- `DSS::vars_t::get_var`: first variable with the given id, `nullptr`
(`none`) if absent. -/
def get_var : vars_t → Str → Option var_t
  | [], _ => none
  | v :: vs, id => if v.id = id then some v else get_var vs id

/-- `DSS::vars_t::has_var`. -/
def has_var (vars : vars_t) (id : Str) : Bool :=
  (get_var vars id).isSome

/-- `DSS::vars_t::init_var`: no-op when the id exists, otherwise
push_back of a fresh variable. -/
def init_var (vars : vars_t) (id : Str) (data : List anyval) : vars_t :=
  if has_var vars id then vars else vars ++ [⟨id, data⟩]

/-- `DSS::vars_t::get_or_add_var`: returns the (possibly extended)
store together with the found variable's data.  After `init_var` the
lookup always succeeds, so no `nullptr` case remains (the C++ null
checks at the call sites are unreachable). -/
def get_or_add_var (vars : vars_t) (id : Str) : vars_t × List anyval :=
  match get_var vars id with
  | some v => (vars, v.data)
  | none => (vars ++ [⟨id, []⟩], [])

/-- In-place mutation through the `shared_ptr` handed out by `get_var` /
`get_or_add_var`: replaces the data of the first variable with the
given id. -/
def update_var : vars_t → Str → List anyval → vars_t
  | [], _, _ => []
  | v :: vs, id, data =>
    if v.id = id then { v with data := data } :: vs
    else v :: update_var vs id data

/-- `lang::ALIAS_VAR` -/
def ALIAS_VAR : Str := str "alias"
/-- `lang::ALIAS_DEREF` -/
def ALIAS_DEREF : Str := str "$"
/-- `lang::ALIAS_USE` -/
def ALIAS_USE : Str := str "alias"
/-- `DSS::AUTO_PREPROCESSOR_VAR` -/
def AUTO_PREPROCESSOR_VAR : Str := str "auto_preprocessor"

/-- `lang::use_alias` (src/unnamed/part_001 lines 73-84): get-or-create
the automatic-preprocessor variable and `append_data` the literal
command name "alias" into it. -/
def use_alias (vars : vars_t) : vars_t :=
  let (vars, data) := get_or_add_var vars AUTO_PREPROCESSOR_VAR
  update_var vars AUTO_PREPROCESSOR_VAR
    (append_data cast_str anyval.strv data ALIAS_USE)

/-- The replace loop of `lang::create_alias` (src/unnamed/part_001
lines 116-134): walks the alias variable's data; a `bad_any_cast` is
caught and makes the whole call return 0 with the data unchanged
(`some` of the untouched remainder); an element whose id matches is
overwritten in place (`element = new_alias`) and the call returns 0;
`none` means the loop finished without replacing, so the caller falls
through to `append_data`. -/
def create_alias_loop (new_alias : alias_t) (id : Str) :
    List anyval → Option (List anyval)
  | [] => none
  | e :: rest =>
    match cast_alias e with
    | none => some (e :: rest)
    | some comp =>
      if comp.id = id then some (anyval.aliasv new_alias :: rest)
      else
        match create_alias_loop new_alias id rest with
        | some rest' => some (e :: rest')
        | none => none

/-- `lang::create_alias` (src/unnamed/part_001 lines 101-139): get or
create the "alias" variable, replace the entry with the same id in
place if one is found, otherwise `append_data` the new entry.  Always
returns 0 (the `nullptr` branch returning 1 is unreachable because
`get_or_add_var` never fails). -/
def create_alias (vars : vars_t) (id data : Str) : vars_t × Nat :=
  let (vars, adata) := get_or_add_var vars ALIAS_VAR
  let new_alias : alias_t := ⟨id, data⟩
  match create_alias_loop new_alias id adata with
  | some adata' => (update_var vars ALIAS_VAR adata', 0)
  | none =>
      (update_var vars ALIAS_VAR
        (append_data cast_alias anyval.aliasv adata new_alias), 0)

example :
    (create_alias [] (str "A") (str "v")).1 =
      [⟨ALIAS_VAR, [anyval.aliasv ⟨str "A", str "v"⟩]⟩] := by decide
example :
    (create_alias (create_alias [] (str "A") (str "v1")).1
        (str "A") (str "v2")).1 =
      [⟨ALIAS_VAR, [anyval.aliasv ⟨str "A", str "v2"⟩]⟩] := by decide

/-! ## Executor state, commands, handlers and the pipeline

The executor (`DSS::executor_t`, src/dss/runtime.h lines 340-520, with
the method bodies of the current DSS.cpp, src/unnamed/part_003 lines
308-537) is modelled as a state record threaded through pure functions.
The handlers and definers of the program are the `lang` ones
(src/unnamed/part_001); C++ function pointers range over them, so they
are a closed enumeration here.

Instrumentation (not part of the C++ state, added so that theorems can
speak about what happened): every task carries a creation-index `tag`;
`trace` records, in order, each statement considered by `direct_exec`,
each handler invocation performed by a delegate with its argument list,
and each `push_error` call; `diags` records the `push_error` calls;
`stdout` accumulates the observable console output. -/

/-- `DSS::task_t` (src/dss/runtime.h lines 127-149).  `tag` is
instrumentation: the order in which the task was created. -/
structure task_t where
  script : Str
  tag : Nat
deriving DecidableEq, Repr

/-- The handler functions of the program (namespace `lang::func`,
src/unnamed/part_001).  `aliasApply` is `lang::func::alias`. -/
inductive handler_t
  | out
  | ls
  | curdir
  | alias_def
  | aliasApply
  | source
deriving DecidableEq, Repr

/-- `DSS::command_t` (src/dss/runtime.h lines 58-104).  The delegate's
connected list; `define_command` always connects exactly one handler.
The owning-executor pointer is the threaded state itself and is never
null at a call site, so it is not a field here. -/
structure command_t where
  handlers : List handler_t
  name : Str
  description : Str
  minimum_args : Int
  maximum_args : Int
deriving DecidableEq, Repr

/-- The definer functions registered by this program
(`lang::preprocessor_definer`, `lang::command_definer`). -/
inductive definer_t
  | lang_preprocessor
  | lang_command
deriving DecidableEq, Repr

/-- Instrumentation events (see the section comment). -/
inductive event_t
  | dispatch (tag : Nat) (stmt : Str)
  | invoked (tag : Nat) (h : handler_t) (args : List Str)
  | diag (tag : Nat) (what : Str) (line : Nat)
deriving DecidableEq, Repr

/-- The external file-system collaborator: `utils::file_read` (modelled
from the spec §6: returns the text content on success and nothing on
failure), `std::filesystem::exists` and the directory listing used by
`ls`. -/
structure fs_t where
  read : Str → Option Str
  pathExists : Str → Bool
  listing : List Str

/-- `DSS::executor_t`'s state.  `current_script` models the script text
of `*m_current_task` (which `exec_task` points at its by-value task
copy); `current_valid` is whether `m_current_task` is non-null.
`next_tag`, `stdout`, `diags`, `trace` are instrumentation. -/
structure ExecState where
  loaded_commands : List command_t
  additional_preprocessors : List definer_t
  additional_commands : List definer_t
  tasks : List task_t
  task_buffer : List task_t
  exec_vars : vars_t
  busy : Bool
  id : Int
  current_valid : Bool
  current_script : Str
  current_tag : Nat
  lookup_error : List (Str × List (Nat × Str))
  next_tag : Nat
  stdout : Str
  diags : List (Str × Nat)
  trace : List event_t
deriving DecidableEq, Repr

/-- Decimal rendering of a number, as `operator<<` prints it. -/
def nat_str (n : Nat) : Str := (Nat.repr n).toList

/-- `DSS::push_error` (current DSS.cpp): prints
`"\nerror: a critical exception occurred on line <line+1>\n<what>\n"`
to stdout.  Every call site in the dispatch path passes the 0-based
statement line, which is `> -1`, so the line suffix is always printed.
Also records `(what, line)` in the instrumentation sinks. -/
def push_error (st : ExecState) (what : Str) (line : Nat) : ExecState :=
  { st with
    stdout := st.stdout ++ str "\nerror: a critical exception occurred on line "
      ++ nat_str (line + 1) ++ str "\n" ++ what ++ str "\n"
    diags := st.diags ++ [(what, line)]
    trace := st.trace ++ [.diag st.current_tag what line] }

/-- `DSS::err::UNKNOWN` -/
def UNKNOWN : Str := str "an unnamed critical exception occurred"

/-- `std::map::at`-style lookup in an association list. -/
def table_find {κ β : Type} [DecidableEq κ] : List (κ × β) → κ → Option β
  | [], _ => none
  | (k, v) :: rest, key => if k = key then some v else table_find rest key

/-- `DSS::executor_t::find_and_push_error` (current DSS.cpp): both
`std::out_of_range` throws (unknown command, unknown code) fall into
the same catch block and push `err::UNKNOWN`. -/
def find_and_push_error (st : ExecState) (command : Str) (code : Nat)
    (line : Nat) : ExecState :=
  match table_find st.lookup_error command with
  | none => push_error st UNKNOWN line
  | some codes =>
    match table_find codes code with
    | none => push_error st UNKNOWN line
    | some msg => push_error st msg line

def ERROR_TOO_MANY_ARGS : Str :=
  str "Excessive amount of arguments provided to command"
def ERROR_TOO_FEW_ARGS : Str :=
  str "Too few arguments provided to command"

/-- The "too many arguments" diagnostic text built by
`attempt_parse_and_exec` (note: no space before `(max`).  The bound is
`> -1` whenever the message is built, so the non-negative decimal
rendering is exact. -/
def too_many_msg (name : Str) (mx : Int) : Str :=
  ERROR_TOO_MANY_ARGS ++ str " \"" ++ name ++ str "\"(max " ++ nat_str mx.toNat ++ str ")"

/-- The "too few arguments" diagnostic text built by
`attempt_parse_and_exec`. -/
def too_few_msg (name : Str) (mn : Int) : Str :=
  ERROR_TOO_FEW_ARGS ++ str " \"" ++ name ++ str "\" (expected " ++ nat_str mn.toNat ++ str ")"

/-- The `std::int32_t(arg_count)` conversion in
`attempt_parse_and_exec`: the `size_t` value reduced modulo `2^32` into
`[-2^31, 2^31)` (two's complement, well defined in C++20, the standard
set in CMakeLists.txt). -/
def int32_of_nat (n : Nat) : Int :=
  let r : Nat := n % 2 ^ 32
  if r < 2 ^ 31 then (r : Int) else (r : Int) - 2 ^ 32

/-- What `lang::func::out` writes to stdout: each argument followed by
one space, then `std::endl`. -/
def out_text (args : List Str) : Str :=
  (args.map (fun a => a ++ [' '])).flatten ++ ['\n']

/-- `lang::func::is_any_alias_id_greater` reads the id length of an
alias cell ("will not check for bad casts"; the alias variable only
ever holds `alias_t` values — see `create_alias` — so the cast never
throws in this program; the impossible non-alias cell gets length 0). -/
def any_alias_id_len : anyval → Nat
  | .aliasv a => a.id.length
  | .strv _ => 0

/-- The ordering `std::sort` establishes when given
`lang::func::is_any_alias_id_greater` (`a.id.length() > b.id.length()`):
consecutive elements satisfy the negation of the comparator, i.e.
descending id length. -/
def alias_ge (a b : anyval) : Prop :=
  any_alias_id_len b ≤ any_alias_id_len a

instance : DecidableRel alias_ge := fun _ _ => Nat.decLe _ _

instance : IsTotal anyval alias_ge :=
  ⟨fun a b => le_total (any_alias_id_len b) (any_alias_id_len a)⟩

instance : IsTrans anyval alias_ge :=
  ⟨fun _ _ _ hab hbc => le_trans hbc hab⟩

/-- The `std::sort(..., is_any_alias_id_greater)` call in
`lang::func::alias` (src/unnamed/part_001 line 249).  `std::sort` is
unstable — the relative order of ids of equal length is unspecified —
so the model fixes insertion sort, which satisfies the same comparator
contract: the result is sorted by descending id length and is a
permutation of the input. -/
def sort_aliases (data : List anyval) : List anyval :=
  List.insertionSort alias_ge data

/-- The substitution loop of `lang::func::alias` (src/unnamed/part_001
lines 251-257): for each alias, replace every occurrence of
(deref marker ++ id) by the alias's value.  The `any_cast` never throws
here (the alias variable only holds `alias_t`). -/
def apply_aliases (data : List anyval) (script : Str) : Str :=
  data.foldl
    (fun scr e =>
      match cast_alias e with
      | some a => string_replace (ALIAS_DEREF ++ a.id) a.value scr
      | none => scr)
    script

/-- `DSS::executor_t::queue_task` (src/dss/runtime.h line 378): pushes
into the buffer, not the live queue.  The tag is instrumentation. -/
def queue_task (st : ExecState) (script : Str) : ExecState :=
  { st with
    task_buffer := st.task_buffer ++ [⟨script, st.next_tag⟩]
    next_tag := st.next_tag + 1 }

/-- The handler bodies of `lang::func` (src/unnamed/part_001).  Each
returns the mutated executor state and the `return_type_t` code.
`curdir`'s `std::filesystem::current_path` call is an external effect
with no representation in the executor state. -/
def exec_handler (fs : fs_t) (h : handler_t) (st : ExecState)
    (args : List Str) : ExecState × Nat :=
  match h with
  | .out => ({ st with stdout := st.stdout ++ out_text args }, 0)
  | .ls =>
      ({ st with stdout := st.stdout ++ (fs.listing.map (fun n => n ++ ['\n'])).flatten }, 0)
  | .curdir =>
      if fs.pathExists (args.headD []) then (st, 0) else (st, 1)
  | .alias_def =>
      let vars := use_alias st.exec_vars
      let id := args.headD []
      let value := (args.drop 1).foldl (· ++ ·) []
      let (vars, code) := create_alias vars id value
      ({ st with exec_vars := vars }, code)
  | .aliasApply =>
      if st.current_valid = false then (st, 1)
      else
        match get_var st.exec_vars ALIAS_VAR with
        | none => (st, 1)
        | some v =>
          let sorted := sort_aliases v.data
          ({ st with
              exec_vars := update_var st.exec_vars ALIAS_VAR sorted
              current_script := apply_aliases sorted st.current_script }, 0)
  | .source =>
      match fs.read (args.headD []) with
      | none => (st, 2)
      | some content => (queue_task st content, 0)

/-- `dss_utils::Delegate::call` as used by `command_t`: invokes every
connected handler in connection order, collecting one return code per
handler; an empty connected list yields an empty result list.  The
`invoked` event is instrumentation. -/
def delegate_call (fs : fs_t) (args : List Str) :
    ExecState → List handler_t → ExecState × List Nat
  | st, [] => (st, [])
  | st, h :: hs =>
    let st := { st with trace := st.trace ++ [.invoked st.current_tag h args] }
    let (st, code) := exec_handler fs h st args
    let (st, codes) := delegate_call fs args st hs
    (st, code :: codes)

/-- `DSS::command_t::attempt_parse_and_exec` (src/unnamed/part_003
lines 501-537): keyword mismatch returns an empty result with no
diagnostic; then the keyword is stripped; an exceeded configured
maximum, then an unmet configured minimum, each push one diagnostic and
return an empty result without touching the delegate; otherwise the
delegate is called with the argument list.  (`tokens[0]` is safe: the
caller never passes an empty token list.  The `m_parent_ex == nullptr`
early return is unreachable: `define_command` always binds `this`.) -/
def attempt_parse_and_exec (fs : fs_t) (c : command_t) (st : ExecState)
    (tokens : List Str) (line : Nat) : ExecState × List Nat :=
  if tokens.headD [] ≠ c.name then (st, [])
  else
    let args := tokens.drop 1
    let arg_count := args.length
    if c.maximum_args > -1 ∧ int32_of_nat arg_count > c.maximum_args then
      (push_error st (too_many_msg c.name c.maximum_args) line, [])
    else if c.minimum_args > -1 ∧ int32_of_nat arg_count < c.minimum_args then
      (push_error st (too_few_msg c.name c.minimum_args) line, [])
    else
      delegate_call fs args st c.handlers

/-- The inner command loop of `DSS::executor_t::direct_exec`: every
loaded command attempts the line; an empty attempt result leaves `res`
alone, a non-empty one overwrites it. -/
def direct_exec_loop (fs : fs_t) (parsed : List Str) (line : Nat) :
    ExecState → List Nat → List command_t → ExecState × List Nat
  | st, res, [] => (st, res)
  | st, res, c :: cs =>
    let (st, opt_res) := attempt_parse_and_exec fs c st parsed line
    direct_exec_loop fs parsed line st (if opt_res.length = 0 then res else opt_res) cs

/-- One iteration of the statement loop of `DSS::executor_t::direct_exec`
(src/unnamed/part_003 lines 338-381): split the statement on the token
delimiter (the `parsed.size() == 0` skip is dead code — the split always
returns at least one token); run every loaded command; an empty final
result or a leading 0 ends the iteration silently; otherwise resolve
`(keyword, res[0])` through the error table.  The `dispatch` event is
instrumentation marking the iteration. -/
def direct_exec_statement (fs : fs_t) (st : ExecState) (stmt : Str)
    (line : Nat) : ExecState :=
  let st := { st with trace := st.trace ++ [.dispatch st.current_tag stmt] }
  let parsed := string_split ' ' stmt
  if parsed.length = 0 then st
  else
    let (st, res) := direct_exec_loop fs parsed line st [] st.loaded_commands
    if res.length = 0 then st
    else if res.headD 0 = 0 then st
    else find_and_push_error st (parsed.headD []) (res.headD 0) line

/-- The statement loop of `direct_exec`, carrying the 0-based line
counter (the C++ starts `line` at -1 and increments it at the top of
the loop). -/
def direct_exec_from (fs : fs_t) : ExecState → Nat → List Str → ExecState
  | st, _, [] => st
  | st, line, stmt :: rest =>
    direct_exec_from fs (direct_exec_statement fs st stmt line) (line + 1) rest

/-- `DSS::executor_t::direct_exec` (src/unnamed/part_003 lines 338-381). -/
def direct_exec (fs : fs_t) (st : ExecState) (statements : List Str) : ExecState :=
  direct_exec_from fs st 0 statements

/-- `DSS::executor_t::auto_preprocessors` (src/unnamed/part_003 lines
383-398): read (or create) the automatic-preprocessor variable and
re-dispatch its entries as statements.  Only strings are ever stored in
it (`use_alias`), so the `any_cast<std::string>` never throws in this
program. -/
def auto_preprocessors (fs : fs_t) (st : ExecState) : ExecState :=
  let (vars, data) := get_or_add_var st.exec_vars AUTO_PREPROCESSOR_VAR
  let st := { st with exec_vars := vars }
  direct_exec fs st (data.filterMap cast_str)

/-- `DSS::executor_t::define_command` (src/dss/runtime.h lines 368-373). -/
def define_command (st : ExecState) (h : handler_t) (name description : Str)
    (minimum_args maximum_args : Int) : ExecState :=
  { st with
    loaded_commands :=
      st.loaded_commands ++ [⟨[h], name, description, minimum_args, maximum_args⟩] }

/-- The registrations performed by `lang::preprocessor_definer` and
`lang::command_definer` (src/unnamed/part_001 lines 284-307), with the
default argument bounds (-1) spelled out. -/
def run_definer (st : ExecState) : definer_t → ExecState
  | .lang_preprocessor =>
    let st := define_command st .source (str "src")
      (str "runs a dss script at path <path>") 1 1
    let st := define_command st .alias_def (str "alias_def")
      (str "creates an alias") 2 (-1)
    define_command st .aliasApply (str "alias") (str "applies aliases") (-1) (-1)
  | .lang_command =>
    let st := define_command st .out (str "out") (str "outputs to console") 1 (-1)
    let st := define_command st .curdir (str "cd")
      (str "changes the current directory") 1 1
    define_command st .ls (str "ls")
      (str "lists all files and directories in the current directory (.)") 0 0

/-- `DSS::executor_t::command_pass` (src/unnamed/part_003 lines
400-406): clear the loaded commands, fan-out call the definer delegate,
then dispatch the statements. -/
def command_pass (fs : fs_t) (st : ExecState) (definers : List definer_t)
    (statements : List Str) : ExecState :=
  let st := { st with loaded_commands := [] }
  let st := definers.foldl run_definer st
  direct_exec fs st statements

/-- `DSS::executor_t::exec_task` (src/unnamed/part_003 lines 408-423).
The task is received by value; `m_current_task` points at that copy and
`script` is a reference into it, so all mutation is threaded through
`current_script`.  The two `string_split` calls are destructive: each
leaves the script holding only its final segment
(`string_split_residue`). -/
def exec_task (fs : fs_t) (st : ExecState) (task : task_t) : ExecState :=
  let st := { st with current_valid := true, current_tag := task.tag }
  let statements := string_split '\n' task.script
  let st := { st with current_script := string_split_residue '\n' task.script }
  let st := command_pass fs st st.additional_preprocessors statements
  let st := auto_preprocessors fs st
  let statements2 := string_split '\n' st.current_script
  let st := { st with current_script := string_split_residue '\n' st.current_script }
  command_pass fs st st.additional_commands statements2

/-- The `for (auto task : m_tasks)` loop of `exec_all_tasks`: the live
queue is not mutated during the loop (handlers queue into the buffer),
so iterating the entry snapshot is exact. -/
def exec_tasks_round (fs : fs_t) : ExecState → List task_t → ExecState
  | st, [] => st
  | st, t :: ts => exec_tasks_round fs (exec_task fs st t) ts

/-- `DSS::executor_t::exec_all_tasks` (src/unnamed/part_003 lines
425-455): empty-queue and busy-flag early returns; run every queued
task; clear the queue; splice the buffer in and recurse.  The C++
recursion is unbounded; `fuel` bounds the call stack — any fuel at
least the number of drain rounds gives the complete drain. -/
def exec_all_tasks (fs : fs_t) : Nat → Bool → ExecState → ExecState
  | 0, _, st => st
  | fuel + 1, recursive, st =>
    if st.tasks.length = 0 then st
    else if st.busy = true then st
    else
      let st := exec_tasks_round fs { st with busy := true } st.tasks
      let st := { st with busy := false, tasks := [] }
      if recursive = true then
        exec_all_tasks fs fuel true
          { st with tasks := st.task_buffer, task_buffer := [] }
      else st

/-- `DSS::executor_t::exec` (current DSS.cpp lines 459-464): append a
task for the script to the live queue and invoke the drain with
`FLAG_RECURSIVE_EXECUTION` (true). -/
def exec (fs : fs_t) (fuel : Nat) (st : ExecState) (script : Str) : ExecState :=
  exec_all_tasks fs fuel true
    { st with
      tasks := st.tasks ++ [⟨script, st.next_tag⟩]
      next_tag := st.next_tag + 1 }

/-- `lang::NULL_ENVIRONMENT` -/
def NULL_ENVIRONMENT : Str :=
  str "internal interpreter error, critical data unexpectedly returned null.\n\nnote: this error requires the attention of a developer"

/-- `lang::ERR_KEY` (src/unnamed/part_001 lines 309-322). -/
def lang_ERR_KEY : List (Str × List (Nat × Str)) :=
  [(str "out", [(1, NULL_ENVIRONMENT)]),
   (str "src", [(1, NULL_ENVIRONMENT),
                (2, str "failed to queue script, file does not exist")]),
   (str "alias_def", [(1, NULL_ENVIRONMENT)]),
   (str "alias",
    [(1, str "internal interpreter error, automatic command failure, critical data unexpectedly returned null. \n\nhelp: did you mean \"alias_def\"?")]),
   (str "cd", [(1, str "file does not exist")])]

/-- The `DSS::executor_t` constructor (src/dss/runtime.h lines 350-361).
The C++ leaves `m_busy` uninitialized; the model takes the value the
program relies on (false — with true the drain would never run). -/
def executor_ctor (id : Int) (preprocessors commands : List definer_t)
    (lookup : List (Str × List (Nat × Str))) : ExecState :=
  { loaded_commands := []
    additional_preprocessors := preprocessors
    additional_commands := commands
    tasks := []
    task_buffer := []
    exec_vars := []
    busy := false
    id := id
    current_valid := false
    current_script := []
    current_tag := 0
    lookup_error := lookup
    next_tag := 0
    stdout := []
    diags := []
    trace := [] }

/-- `DSS::environment_t` (src/dss/runtime.h lines 526-641). -/
structure environment_t where
  id_max : Int
  executors : List ExecState
  additional_preprocessors : List definer_t
  additional_commands : List definer_t
  lookup_error : List (Str × List (Nat × Str))
deriving DecidableEq, Repr

/-- The `DSS::environment_t` constructor: maximum id 0, no executors. -/
def environment_new : environment_t :=
  { id_max := 0, executors := [], additional_preprocessors := []
    additional_commands := [], lookup_error := [] }

/-- `DSS::environment_t::unique_runid` (src/dss/runtime.h lines
626-630).  The body is `return m_id_max; m_id_max++;` — the increment
sits after the return statement and is dead code, so the member is
returned unchanged and never incremented. -/
def unique_runid (env : environment_t) : Int × environment_t :=
  (env.id_max, env)

/-- `DSS::environment_t::spawn_executor` (src/dss/runtime.h lines
565-570). -/
def spawn_executor (env : environment_t) : environment_t :=
  let (rid, env) := unique_runid env
  { env with
    executors := env.executors ++
      [executor_ctor rid env.additional_preprocessors env.additional_commands
        env.lookup_error] }

/-- `DSS::environment_t::init` (current DSS.cpp lines 481-488): connect
the `lang` definers, apply the `lang` error key, spawn one executor. -/
def environment_init (env : environment_t) : environment_t :=
  spawn_executor
    { env with
      additional_preprocessors := env.additional_preprocessors ++ [.lang_preprocessor]
      additional_commands := env.additional_commands ++ [.lang_command]
      lookup_error := env.lookup_error ++ lang_ERR_KEY }

/-- The root executor produced by `environment_t(); init()`: the state
`main_executor()` hands to the CLI. -/
def init_state : ExecState :=
  executor_ctor 0 [.lang_preprocessor] [.lang_command] lang_ERR_KEY

/-! ## Specification helpers (read-only views over the model) -/

/-- The tag of the task an event was recorded under. -/
def event_tag : event_t → Nat
  | .dispatch t _ => t
  | .invoked t _ _ => t
  | .diag t _ _ => t

/-- Whether an event marks a `direct_exec` statement iteration. -/
def is_dispatch : event_t → Bool
  | .dispatch _ _ => true
  | _ => false

/-- A file system with no readable files, no paths and an empty
current directory. -/
def fs_empty : fs_t :=
  { read := fun _ => none, pathExists := fun _ => false, listing := [] }

/-- The argument lists the `out` handler was invoked with, in order. -/
def out_invocations (st : ExecState) : List (List Str) :=
  st.trace.filterMap fun e =>
    match e with
    | .invoked _ .out args => some args
    | _ => none

/-- The data list of the "alias" variable (empty when the variable does
not exist yet). -/
def alias_var_data (vars : vars_t) : List anyval :=
  ((get_var vars ALIAS_VAR).map var_t.data).getD []

/-- The alias entries of a data list. -/
def alias_entries (data : List anyval) : List alias_t :=
  data.filterMap cast_alias

/-- The effect of `lang::create_alias` on the alias variable's data
list alone (specification helper; `create_alias` is this applied under
`get_or_add_var` / the shared pointer). -/
def create_alias_data (adata : List anyval) (id value : Str) : List anyval :=
  match create_alias_loop ⟨id, value⟩ id adata with
  | some adata' => adata'
  | none => append_data cast_alias anyval.aliasv adata ⟨id, value⟩

/-- The result `attempt_parse_and_exec` returns for each loaded command
in turn (specification helper: the per-command result lists before
`direct_exec` discards all but the last non-empty one). -/
def attempt_results (fs : fs_t) (parsed : List Str) (line : Nat) :
    ExecState → List command_t → List (List Nat)
  | _, [] => []
  | st, c :: cs =>
    let (st', r) := attempt_parse_and_exec fs c st parsed line
    r :: attempt_results fs parsed line st' cs

/-- An executor with the `lang` command-pass set (out, cd, ls) loaded,
as the command pass of any task on the root executor has it. -/
def state_with_lang_commands : ExecState :=
  run_definer init_state .lang_command

/-- The `ls` registration performed by `lang::command_definer`
(src/unnamed/part_001 line 304): min_args 0, max_args 0. -/
def ls_command : command_t :=
  ⟨[.ls], str "ls",
   str "lists all files and directories in the current directory (.)", 0, 0⟩

/-- The `alias_def` registration performed by
`lang::preprocessor_definer` (src/unnamed/part_001 line 288):
min_args 2, no maximum. -/
def alias_def_command : command_t :=
  ⟨[.alias_def], str "alias_def", str "creates an alias", 2, -1⟩

/-- Facts preserved by every operation performed while one task is
current (everything `exec_task` runs between its retagging and its
return): the definer lists, the live queue, the busy flag and the
current tag are untouched; the tag counter only grows; the task buffer
is append-only and every task queued meanwhile bears a fresh tag. -/
def frame_core (st st' : ExecState) : Prop :=
  st'.additional_preprocessors = st.additional_preprocessors
  ∧ st'.additional_commands = st.additional_commands
  ∧ st'.tasks = st.tasks
  ∧ st'.busy = st.busy
  ∧ st'.current_tag = st.current_tag
  ∧ st.next_tag ≤ st'.next_tag
  ∧ ∃ qs, st'.task_buffer = st.task_buffer ++ qs
      ∧ ∀ t ∈ qs, st.next_tag ≤ t.tag ∧ t.tag < st'.next_tag

/-- The trace has only been extended, with every new event tagged with
the current task and none of them a statement-dispatch marker. -/
def trace_ext_nd (st st' : ExecState) : Prop :=
  ∃ Δ, st'.trace = st.trace ++ Δ
    ∧ ∀ e ∈ Δ, event_tag e = st.current_tag ∧ is_dispatch e = false

/-- The command set `lang::preprocessor_definer` registers. -/
def lang_preproc_commands : List command_t :=
  [⟨[.source], str "src", str "runs a dss script at path <path>", 1, 1⟩,
   ⟨[.alias_def], str "alias_def", str "creates an alias", 2, -1⟩,
   ⟨[.aliasApply], str "alias", str "applies aliases", -1, -1⟩]

/-- A file system holding exactly one script file, used to witness the
level-order sourcing theorem. -/
def fs_single : fs_t :=
  { read := fun p => if p = str "f.dss" then some (str "out hi") else none
    pathExists := fun _ => false
    listing := [] }

/-- The state `exec_task` installs before its first pass: the task is
current and the destructive first split has left only the script's
final segment in the current script. -/
def exec_task_stage0 (st : ExecState) (task : task_t) : ExecState :=
  { st with
    current_valid := true
    current_tag := task.tag
    current_script := string_split_residue '\n' task.script }

/-- `exec_task` after the preprocessor pass. -/
def exec_task_stage1 (fs : fs_t) (st : ExecState) (task : task_t) : ExecState :=
  command_pass fs (exec_task_stage0 st task)
    (exec_task_stage0 st task).additional_preprocessors
    (string_split '\n' task.script)

/-- `exec_task` after the automatic preprocessors. -/
def exec_task_stage2 (fs : fs_t) (st : ExecState) (task : task_t) : ExecState :=
  auto_preprocessors fs (exec_task_stage1 fs st task)

/-- A two-line task used to witness the destructive-split frame effect. -/
def sample_multiline_task : task_t :=
  ⟨str "alias_def A x\nout $A", 0⟩

/-- The state of the root executor after
`submit("alias_def GREETING hello world")` followed by
`submit("out $GREETING")` (spec §8 scenario). -/
def scenario_alias_out : ExecState :=
  exec fs_empty 4
    (exec fs_empty 4 init_state (str "alias_def GREETING hello world"))
    (str "out $GREETING")

/-- The root executor's state right after `exec` queues the submitted
script `src F\nS`: the sole live task carries tag 0 and the next fresh
tag is 1 (mirrors the record update inside `exec` at `init_state`). -/
def C5_submit_state (F S : Str) : ExecState :=
  { init_state with
    tasks := init_state.tasks ++
      [⟨str "src " ++ F ++ str "\n" ++ S, init_state.next_tag⟩]
    next_tag := init_state.next_tag + 1 }

/-- The root executor's state the moment the first drain round picks up
the submitted script: the sole live task carries tag 0, the busy flag
is held, and the next fresh tag is 1. -/
def C5_round1_state (F S : Str) : ExecState :=
  { init_state with
    busy := true
    tasks := [⟨str "src " ++ F ++ str "\n" ++ S, 0⟩]
    next_tag := 1 }

/-- The state `exec_all_tasks` recurses on after the first drain round:
the submitted task has run, the queue is cleared, and the task buffer
(the tasks the handlers queued, headed by the sourced file) is spliced
into the live queue. -/
def C5_round2_state (fs : fs_t) (F S : Str) : ExecState :=
  { exec_task fs (C5_round1_state F S) ⟨str "src " ++ F ++ str "\n" ++ S, 0⟩ with
    busy := false
    tasks := (exec_task fs (C5_round1_state F S)
      ⟨str "src " ++ F ++ str "\n" ++ S, 0⟩).task_buffer
    task_buffer := [] }

/-- The head task of the second drain round — the sourced file's script
under its fresh tag 1 — executed against the round's busy state. -/
def C5_head2 (fs : fs_t) (F S cF : Str) : ExecState :=
  exec_task fs { C5_round2_state fs F S with busy := true } ⟨cF, 1⟩

/-- The rest of the second drain round after its head task: the trailing
queue `qs` run from the head task's state. -/
def C5_round2_run (fs : fs_t) (F S cF : Str) (qs : List task_t) : ExecState :=
  exec_tasks_round fs (C5_head2 fs F S cF) qs

/-- The state `exec_all_tasks` recurses on after the second drain
round. -/
def C5_round3_state (fs : fs_t) (F S cF : Str) (qs : List task_t) : ExecState :=
  { C5_round2_run fs F S cF qs with
    busy := false
    tasks := (C5_round2_run fs F S cF qs).task_buffer
    task_buffer := [] }

/-! # Theorems -/

theorem cast_str_eq_some (e : anyval) (s : Str) :
    cast_str e = some s ↔ e = .strv s := by
  cases e <;> simp [cast_str]

theorem cast_alias_eq_some (e : anyval) (a : alias_t) :
    cast_alias e = some a ↔ e = .aliasv a := by
  cases e <;> simp [cast_alias]

theorem append_data_loop_eq {α : Type} [DecidableEq α]
    (cast : anyval → Option α) (what : α) :
    ∀ (d : List anyval) (found : Bool),
      append_data_loop cast what d found =
        if d.any (fun e => (cast e).isNone) = true then none
        else some (found || d.any (fun e => decide (cast e = some what))) := by
  intro d
  induction d with
  | nil =>
    intro found
    simp [append_data_loop]
  | cons e rest ih =>
    intro found
    simp only [append_data_loop]
    cases hc : cast e with
    | none =>
      simp [List.any_cons, hc]
    | some comp =>
      show (if comp = what then append_data_loop cast what rest true
            else append_data_loop cast what rest found) = _
      by_cases hcw : comp = what
      · subst hcw
        rw [if_pos rfl, ih true]
        simp [List.any_cons, hc]
      · rw [if_neg hcw, ih found]
        simp [List.any_cons, hc, hcw]

theorem append_data_char {α : Type} [DecidableEq α]
    (cast : anyval → Option α) (inj : α → anyval)
    (hinj : ∀ (x : α) (e : anyval), cast e = some x ↔ e = inj x) :
    ∀ (d : List anyval) (what : α),
      append_data cast inj d what =
        if ∃ e ∈ d, cast e = none then d
        else if inj what ∈ d then d
        else d ++ [inj what] := by
  intro d what
  by_cases hb : d.any (fun e => (cast e).isNone) = true
  · have hex : ∃ e ∈ d, cast e = none := by
      simpa [List.any_eq_true, Option.isNone_iff_eq_none] using hb
    simp [append_data, append_data_loop_eq, hb, hex]
  · have hnex : ¬ ∃ e ∈ d, cast e = none := by
      simpa [List.any_eq_true, Option.isNone_iff_eq_none] using hb
    have hb' : d.any (fun e => (cast e).isNone) = false := by
      revert hb; cases d.any (fun e => (cast e).isNone) <;> simp
    by_cases hm : d.any (fun e => decide (cast e = some what)) = true
    · have hmem : inj what ∈ d := by
        have : ∃ e ∈ d, cast e = some what := by
          simpa [List.any_eq_true] using hm
        rcases this with ⟨e, he, hce⟩
        exact ((hinj what e).mp hce) ▸ he
      simp [append_data, append_data_loop_eq, hb', hm, hnex, hmem]
    · have hm' : d.any (fun e => decide (cast e = some what)) = false := by
        revert hm; cases d.any (fun e => decide (cast e = some what)) <;> simp
      have hnm : inj what ∉ d := by
        intro hmem
        exact hm (by
          simp only [List.any_eq_true]
          exact ⟨inj what, hmem, by simp [(hinj what (inj what)).mpr rfl]⟩)
      simp [append_data, append_data_loop_eq, hb', hm', hnex, hnm]

/-- C3 (counterexample): `append_data` on a variable holding an
`alias_t` entry, given a string value of a different dynamic type, does
NOT append the value — the `bad_any_cast` catch block returns early and
the value is silently dropped, so the list is unchanged, contradicting
the claim that "the new value is still appended". -/
theorem C3_mismatch_counterexample :
    append_data cast_str anyval.strv [anyval.aliasv ⟨str "A", str "v"⟩] (str "alias")
      = [anyval.aliasv ⟨str "A", str "v"⟩] ∧
    ¬ (append_data cast_str anyval.strv [anyval.aliasv ⟨str "A", str "v"⟩] (str "alias")
        = [anyval.aliasv ⟨str "A", str "v"⟩, anyval.strv (str "alias")]) := by
  decide

/-- C3 (amended): `Var::append_data` is idempotent — appending a value
equal to an existing element leaves the list unchanged — and signals no
failure on a dynamic-type mismatch; but when any stored element's
dynamic type differs from the appended value's, the call returns early
with the list unchanged (the value is dropped), and only when every
element has the matching type and none equals the value is the value
appended.  Stated for both payload types the program stores
(`std::string` and `lang::alias_t`). -/
theorem C3_append_data_amended :
    (∀ (d : List anyval) (s : Str),
      append_data cast_str anyval.strv d s =
        if ∃ e ∈ d, cast_str e = none then d
        else if anyval.strv s ∈ d then d
        else d ++ [anyval.strv s]) ∧
    (∀ (d : List anyval) (a : alias_t),
      append_data cast_alias anyval.aliasv d a =
        if ∃ e ∈ d, cast_alias e = none then d
        else if anyval.aliasv a ∈ d then d
        else d ++ [anyval.aliasv a]) :=
  ⟨append_data_char cast_str anyval.strv (fun x e => cast_str_eq_some e x),
   append_data_char cast_alias anyval.aliasv (fun x e => cast_alias_eq_some e x)⟩

/-- C4: `unique_runid` returns `m_id_max` and the increment after the
`return` statement is dead code, so two consecutive `spawn_executor`
calls on a fresh environment both hand out RunID 0 — contradicting the
claim (and `unique_runid`'s own comment) that executor ids are unique
and monotonically increasing. -/
theorem C4_spawn_ids_all_zero :
    ((spawn_executor (spawn_executor environment_new)).executors.map ExecState.id)
        = [0, 0]
      ∧ (spawn_executor (spawn_executor environment_new)).id_max = 0 := by
  decide

theorem attempt_no_match (fs : fs_t) (c : command_t) (st : ExecState)
    (tokens : List Str) (line : Nat) (h : tokens.headD [] ≠ c.name) :
    attempt_parse_and_exec fs c st tokens line = (st, []) := by
  simp only [attempt_parse_and_exec]
  rw [if_pos h]

theorem direct_exec_loop_no_match (fs : fs_t) (parsed : List Str) (line : Nat) :
    ∀ (cs : List command_t) (st : ExecState) (res : List Nat),
      (∀ c ∈ cs, parsed.headD [] ≠ c.name) →
      direct_exec_loop fs parsed line st res cs = (st, res) := by
  intro cs
  induction cs with
  | nil => intro st res _; rfl
  | cons c cs ih =>
    intro st res h
    simp only [direct_exec_loop,
      attempt_no_match fs c st parsed line (h c (List.mem_cons_self c cs))]
    simpa using ih st res (fun c' hc' => h c' (List.mem_cons_of_mem c hc'))

/-- C10: a statement whose keyword matches no currently active command
is skipped silently — the executor state is unchanged except for the
instrumentation marker of the loop iteration (in particular zero
diagnostics and no output) — and the remaining statements of the batch
are processed exactly as they would have been, with their original line
numbers. -/
theorem C10_unmatched_keyword_silent (fs : fs_t) (st : ExecState)
    (line : Nat) (stmt : Str) (rest : List Str)
    (h : ∀ c ∈ st.loaded_commands, (string_split ' ' stmt).headD [] ≠ c.name) :
    direct_exec_statement fs st stmt line
        = { st with trace := st.trace ++ [.dispatch st.current_tag stmt] }
      ∧ direct_exec_from fs st line (stmt :: rest)
        = direct_exec_from fs
            { st with trace := st.trace ++ [.dispatch st.current_tag stmt] }
            (line + 1) rest := by
  have hne : ¬ (string_split ' ' stmt).length = 0 :=
    fun hlen => string_split_ne_nil ' ' stmt (List.length_eq_zero.mp hlen)
  have h1 : direct_exec_statement fs st stmt line
      = { st with trace := st.trace ++ [.dispatch st.current_tag stmt] } := by
    simp only [direct_exec_statement]
    rw [direct_exec_loop_no_match fs (string_split ' ' stmt) line
      st.loaded_commands _ [] h]
    simp [hne]
  exact ⟨h1, by simp only [direct_exec_from, h1]⟩

theorem C10_unmatched_keyword_silent_witness :
    (∀ c ∈ state_with_lang_commands.loaded_commands,
        (string_split ' ' (str "frobnicate 1")).headD [] ≠ c.name)
    ∧ (direct_exec_statement fs_empty state_with_lang_commands (str "frobnicate 1") 0
        = { state_with_lang_commands with
            trace := state_with_lang_commands.trace ++
              [.dispatch state_with_lang_commands.current_tag (str "frobnicate 1")] }
      ∧ direct_exec_from fs_empty state_with_lang_commands 0
            (str "frobnicate 1" :: [str "out hi"])
        = direct_exec_from fs_empty
            { state_with_lang_commands with
              trace := state_with_lang_commands.trace ++
                [.dispatch state_with_lang_commands.current_tag (str "frobnicate 1")] }
            1 [str "out hi"]) :=
  ⟨by decide,
   C10_unmatched_keyword_silent fs_empty state_with_lang_commands 0
     (str "frobnicate 1") [str "out hi"] (by decide)⟩

theorem direct_exec_loop_last (fs : fs_t) (parsed : List Str) (line : Nat) :
    ∀ (cs : List command_t) (st : ExecState) (res0 : List Nat),
      (direct_exec_loop fs parsed line st res0 cs).2 =
        ((attempt_results fs parsed line st cs).filter
          (fun r => decide (r ≠ []))).getLastD res0 := by
  intro cs
  induction cs with
  | nil => intro st res0; rfl
  | cons c cs ih =>
    intro st res0
    simp only [direct_exec_loop, attempt_results]
    cases hA : attempt_parse_and_exec fs c st parsed line with
    | mk st' r =>
      by_cases hr : r = []
      · subst hr
        simpa [List.filter_cons] using ih st' res0
      · have hlen : ¬ r.length = 0 :=
          fun hl => hr (List.length_eq_zero.mp hl)
        simp only [List.filter_cons, decide_eq_true_eq, hr, if_pos, hlen,
          if_neg, ite_false, ite_true]
        rw [if_pos hr, List.getLastD_cons]
        exact ih st' r

/-- C9: when a statement's keyword matches more than one active command
the last matching command's (non-empty) result list wins: the final
`res` of the inner loop is the last non-empty entry of the per-command
attempt results (every earlier one is discarded), and
`direct_exec_statement` performs its error reporting with exactly that
result list. -/
theorem C9_last_match_wins :
    (∀ (fs : fs_t) (parsed : List Str) (line : Nat) (cs : List command_t)
        (st : ExecState) (res0 : List Nat),
      (direct_exec_loop fs parsed line st res0 cs).2 =
        ((attempt_results fs parsed line st cs).filter
          (fun r => decide (r ≠ []))).getLastD res0)
    ∧ (∀ (fs : fs_t) (st : ExecState) (stmt : Str) (line : Nat),
      direct_exec_statement fs st stmt line =
        (let st1 : ExecState :=
          { st with trace := st.trace ++ [.dispatch st.current_tag stmt] }
         let parsed := string_split ' ' stmt
         let st2 := (direct_exec_loop fs parsed line st1 [] st1.loaded_commands).1
         let res := ((attempt_results fs parsed line st1 st1.loaded_commands).filter
           (fun r => decide (r ≠ []))).getLastD []
         if res.length = 0 then st2
         else if res.headD 0 = 0 then st2
         else find_and_push_error st2 (parsed.headD []) (res.headD 0) line)) := by
  constructor
  · intro fs parsed line cs st res0
    exact direct_exec_loop_last fs parsed line cs st res0
  · intro fs st stmt line
    have hne : ¬ (string_split ' ' stmt).length = 0 :=
      fun hlen => string_split_ne_nil ' ' stmt (List.length_eq_zero.mp hlen)
    simp only [direct_exec_statement, hne, if_false, ite_false]
    rw [← direct_exec_loop_last]

theorem int32_of_nat_small (n : Nat) (h : n < 2 ^ 31) :
    int32_of_nat n = (n : Int) := by
  have h32 : n % 2 ^ 32 = n := Nat.mod_eq_of_lt (by omega)
  simp only [int32_of_nat, h32]
  rw [if_pos h]

/-- C8 (amended): for every command with a configured minimum (or
maximum) argument count and every statement of at most `2^31` tokens
whose first token matches the command's name, a remaining-token count
below the minimum (or above the maximum) makes
`attempt_parse_and_exec` push exactly one arity diagnostic — naming the
command and carrying the statement's line — and return an empty result
without calling the delegate (so no handler runs and the state changes
only by that one diagnostic); the message is the "too many" one when
the maximum check fires (it is tested first) and the "too few" one
otherwise.  The token-count bound is needed because the count is
converted to a 32-bit signed integer before the comparisons
(`std::int32_t(arg_count)`). -/
theorem C8_arity_diagnostic (fs : fs_t) (c : command_t) (st : ExecState)
    (tokens : List Str) (line : Nat)
    (hname : tokens.headD [] = c.name)
    (hlen : tokens.length ≤ 2 ^ 31)
    (hviol : (c.minimum_args > -1 ∧ ((tokens.length - 1 : Nat) : Int) < c.minimum_args)
      ∨ (c.maximum_args > -1 ∧ ((tokens.length - 1 : Nat) : Int) > c.maximum_args)) :
    ∃ msg,
      attempt_parse_and_exec fs c st tokens line = (push_error st msg line, [])
      ∧ msg = (if c.maximum_args > -1 ∧ ((tokens.length - 1 : Nat) : Int) > c.maximum_args
               then too_many_msg c.name c.maximum_args
               else too_few_msg c.name c.minimum_args) := by
  have hh : ¬ (tokens.headD [] ≠ c.name) := fun hne => hne hname
  have hcnt : int32_of_nat (tokens.drop 1).length = ((tokens.length - 1 : Nat) : Int) := by
    rw [List.length_drop]
    exact int32_of_nat_small _ (by omega)
  simp only [attempt_parse_and_exec, hcnt]
  rw [if_neg hh]
  by_cases hmax : c.maximum_args > -1 ∧ ((tokens.length - 1 : Nat) : Int) > c.maximum_args
  · refine ⟨too_many_msg c.name c.maximum_args, ?_, ?_⟩
    · rw [if_pos hmax]
    · rw [if_pos hmax]
  · have hmin : c.minimum_args > -1 ∧ ((tokens.length - 1 : Nat) : Int) < c.minimum_args := by
      rcases hviol with h | h
      · exact h
      · exact absurd h hmax
    refine ⟨too_few_msg c.name c.minimum_args, ?_, ?_⟩
    · rw [if_neg hmax, if_pos hmin]
    · rw [if_neg hmax]

theorem C8_arity_diagnostic_witness :
    ((str "alias_def" :: [str "x"]).headD [] = alias_def_command.name
      ∧ (str "alias_def" :: [str "x"]).length ≤ 2 ^ 31
      ∧ ((alias_def_command.minimum_args > -1
          ∧ ((((str "alias_def" :: [str "x"]).length - 1 : Nat)) : Int)
              < alias_def_command.minimum_args)
        ∨ (alias_def_command.maximum_args > -1
          ∧ ((((str "alias_def" :: [str "x"]).length - 1 : Nat)) : Int)
              > alias_def_command.maximum_args)))
    ∧ ∃ msg,
        attempt_parse_and_exec fs_empty alias_def_command init_state
            (str "alias_def" :: [str "x"]) 0 = (push_error init_state msg 0, [])
        ∧ msg = (if alias_def_command.maximum_args > -1
                  ∧ ((((str "alias_def" :: [str "x"]).length - 1 : Nat)) : Int)
                      > alias_def_command.maximum_args
                 then too_many_msg alias_def_command.name alias_def_command.maximum_args
                 else too_few_msg alias_def_command.name alias_def_command.minimum_args) :=
  ⟨⟨by decide, by decide, by decide⟩,
   C8_arity_diagnostic fs_empty alias_def_command init_state
     (str "alias_def" :: [str "x"]) 0 (by decide) (by decide) (by decide)⟩

theorem attempt_ok (fs : fs_t) (c : command_t) (st : ExecState)
    (tokens : List Str) (line : Nat)
    (hname : tokens.headD [] = c.name)
    (hmax : ¬ (c.maximum_args > -1
      ∧ int32_of_nat (tokens.drop 1).length > c.maximum_args))
    (hmin : ¬ (c.minimum_args > -1
      ∧ int32_of_nat (tokens.drop 1).length < c.minimum_args)) :
    attempt_parse_and_exec fs c st tokens line
      = delegate_call fs (tokens.drop 1) st c.handlers := by
  simp only [attempt_parse_and_exec]
  rw [if_neg (fun hne => hne hname), if_neg hmax, if_neg hmin]

/-- C8 (counterexample): the argument count is truncated to 32 bits
before the comparisons, so a statement with `2^32` arguments — a count
far above the configured maximum 0 of the `ls` command — wraps to 0,
sails through both arity checks, emits no diagnostic at all (where the
claim demands exactly one), and the handler IS invoked. -/
theorem C8_wraparound_counterexample :
    (attempt_parse_and_exec fs_empty ls_command init_state
        (str "ls" :: List.replicate (2 ^ 32) (str "x")) 0).1.diags = []
    ∧ (attempt_parse_and_exec fs_empty ls_command init_state
        (str "ls" :: List.replicate (2 ^ 32) (str "x")) 0).2 = [0]
    ∧ (attempt_parse_and_exec fs_empty ls_command init_state
        (str "ls" :: List.replicate (2 ^ 32) (str "x")) 0).1.trace
      = [event_t.invoked 0 .ls (List.replicate (2 ^ 32) (str "x"))] := by
  have hlen2 : ((str "ls" :: List.replicate (2 ^ 32) (str "x")).drop 1).length
      = 2 ^ 32 := by
    rw [List.drop_succ_cons, List.drop_zero, List.length_replicate]
  have h0 : int32_of_nat (2 ^ 32) = 0 := by
    simp [int32_of_nat]
  have key : attempt_parse_and_exec fs_empty ls_command init_state
      (str "ls" :: List.replicate (2 ^ 32) (str "x")) 0
      = delegate_call fs_empty
          ((str "ls" :: List.replicate (2 ^ 32) (str "x")).drop 1)
          init_state ls_command.handlers := by
    apply attempt_ok
    · rfl
    · intro hc
      have h2 := hc.2
      rw [hlen2, h0] at h2
      exact absurd h2 (by decide)
    · intro hc
      have h2 := hc.2
      rw [hlen2, h0] at h2
      exact absurd h2 (by decide)
  rw [key]
  exact ⟨rfl, rfl, rfl⟩

/-- C2: `string_split` consumes its by-reference argument — the token
list is never empty, the string is left holding exactly its final
segment (which contains no delimiter; the tokens rebuilt with the
delimiter give back the original string) — and consequently, in
`exec_task`, for every task whose script contains a newline the first
split leaves the Task's script holding only the script's last line
(at least two statements were produced), the preprocessor stages
(including the `alias` substitution, which reads and writes
`current_script`) operate on that last line only, and the command pass
dispatches the re-split of that (possibly rewritten) last line. -/
theorem C2_destructive_split_frame :
    (∀ (delim : Char) (s : Str),
        string_split delim s ≠ []
        ∧ string_split_residue delim s = (string_split delim s).getLastD []
        ∧ delim ∉ string_split_residue delim s
        ∧ List.intercalate [delim] (string_split delim s) = s)
    ∧ (∀ (fs : fs_t) (st : ExecState) (task : task_t), '\n' ∈ task.script →
        2 ≤ (string_split '\n' task.script).length
        ∧ exec_task fs st task =
          (let statements := string_split '\n' task.script
           let st1 := command_pass fs
             { st with
               current_valid := true
               current_tag := task.tag
               current_script := (string_split '\n' task.script).getLastD [] }
             st.additional_preprocessors statements
           let st2 := auto_preprocessors fs st1
           let statements2 := string_split '\n' st2.current_script
           command_pass fs
             { st2 with current_script := string_split_residue '\n' st2.current_script }
             st2.additional_commands statements2)) := by
  constructor
  · intro delim s
    exact ⟨string_split_ne_nil delim s, rfl,
      string_split_residue_no_delim delim s, intercalate_string_split delim s⟩
  · intro fs st task h
    exact ⟨string_split_length_ge_two '\n' task.script h, rfl⟩

theorem C2_destructive_split_frame_witness :
    '\n' ∈ sample_multiline_task.script
    ∧ (2 ≤ (string_split '\n' sample_multiline_task.script).length
      ∧ exec_task fs_empty init_state sample_multiline_task =
        (let statements := string_split '\n' sample_multiline_task.script
         let st1 := command_pass fs_empty
           { init_state with
             current_valid := true
             current_tag := sample_multiline_task.tag
             current_script := (string_split '\n' sample_multiline_task.script).getLastD [] }
           init_state.additional_preprocessors statements
         let st2 := auto_preprocessors fs_empty st1
         let statements2 := string_split '\n' st2.current_script
         command_pass fs_empty
           { st2 with current_script := string_split_residue '\n' st2.current_script }
           st2.additional_commands statements2)) :=
  ⟨by decide,
   C2_destructive_split_frame.2 fs_empty init_state sample_multiline_task (by decide)⟩

/-- C6: the `alias` handler sorts the stored aliases with
`is_any_alias_id_greater` before substituting, so the processed order
is descending in id length (and a permutation of the stored aliases);
for any two aliases the longer id is substituted first — for ids that
are one a prefix of the other, every occurrence of the longer deref
form is consumed by the longer alias before the shorter one runs; in
particular with aliases "A" and "AB" the script "out $AB" becomes
"out y" (AB's value), never a partial match via "A". -/
theorem C6_descending_substitution :
    (∀ (data : List anyval),
        List.Sorted alias_ge (sort_aliases data)
        ∧ List.Perm (sort_aliases data) data)
    ∧ (∀ (script : Str) (a1 a2 : alias_t), a1.id.length < a2.id.length →
        apply_aliases (sort_aliases [anyval.aliasv a1, anyval.aliasv a2]) script
          = string_replace (ALIAS_DEREF ++ a1.id) a1.value
              (string_replace (ALIAS_DEREF ++ a2.id) a2.value script)
        ∧ apply_aliases (sort_aliases [anyval.aliasv a2, anyval.aliasv a1]) script
          = string_replace (ALIAS_DEREF ++ a1.id) a1.value
              (string_replace (ALIAS_DEREF ++ a2.id) a2.value script))
    ∧ apply_aliases (sort_aliases
        [anyval.aliasv ⟨str "A", str "x"⟩, anyval.aliasv ⟨str "AB", str "y"⟩])
        (str "out $AB") = str "out y" := by
  refine ⟨?_, ?_, by decide⟩
  · intro data
    exact ⟨List.sorted_insertionSort alias_ge data,
      List.perm_insertionSort alias_ge data⟩
  · intro script a1 a2 h
    have hns : ¬ alias_ge (anyval.aliasv a1) (anyval.aliasv a2) := by
      simp only [alias_ge, any_alias_id_len]
      omega
    have hs : alias_ge (anyval.aliasv a2) (anyval.aliasv a1) := by
      simp only [alias_ge, any_alias_id_len]
      omega
    constructor <;>
      simp [sort_aliases, List.insertionSort, List.orderedInsert, hns, hs,
        apply_aliases, cast_alias]

theorem C6_descending_substitution_witness :
    ((⟨str "A", str "x"⟩ : alias_t).id.length
        < (⟨str "AB", str "y"⟩ : alias_t).id.length)
    ∧ (apply_aliases (sort_aliases
          [anyval.aliasv ⟨str "A", str "x"⟩, anyval.aliasv ⟨str "AB", str "y"⟩])
          (str "out $AB $A")
        = string_replace (ALIAS_DEREF ++ (⟨str "A", str "x"⟩ : alias_t).id)
            (⟨str "A", str "x"⟩ : alias_t).value
            (string_replace (ALIAS_DEREF ++ (⟨str "AB", str "y"⟩ : alias_t).id)
              (⟨str "AB", str "y"⟩ : alias_t).value (str "out $AB $A"))
      ∧ apply_aliases (sort_aliases
          [anyval.aliasv ⟨str "AB", str "y"⟩, anyval.aliasv ⟨str "A", str "x"⟩])
          (str "out $AB $A")
        = string_replace (ALIAS_DEREF ++ (⟨str "A", str "x"⟩ : alias_t).id)
            (⟨str "A", str "x"⟩ : alias_t).value
            (string_replace (ALIAS_DEREF ++ (⟨str "AB", str "y"⟩ : alias_t).id)
              (⟨str "AB", str "y"⟩ : alias_t).value (str "out $AB $A"))) :=
  ⟨by decide,
   C6_descending_substitution.2.1 (str "out $AB $A")
     ⟨str "A", str "x"⟩ ⟨str "AB", str "y"⟩ (by decide)⟩

theorem get_var_update (d : List anyval) :
    ∀ (vars : vars_t) (id : Str) (v0 : var_t), get_var vars id = some v0 →
      get_var (update_var vars id d) id = some { v0 with data := d } := by
  intro vars
  induction vars with
  | nil => intro id v0 h; simp [get_var] at h
  | cons v vs ih =>
    intro id v0 h
    by_cases hid : v.id = id
    · simp only [get_var, hid, if_pos, ite_true, Option.some.injEq] at h
      subst h
      simp [update_var, get_var, hid]
    · simp only [get_var, hid, ite_false, if_neg, not_false_iff] at h
      simp [update_var, get_var, hid, ih id v0 h]

theorem get_var_append_self (vars : vars_t) (id : Str) (d : List anyval)
    (h : get_var vars id = none) :
    get_var (vars ++ [⟨id, d⟩]) id = some ⟨id, d⟩ := by
  induction vars with
  | nil => simp [get_var]
  | cons v vs ih =>
    by_cases hid : v.id = id
    · simp [get_var, hid] at h
    · simp only [get_var, hid, ite_false, if_neg, not_false_iff] at h
      simpa [get_var, hid] using ih h

theorem update_var_append (vars : vars_t) (id : Str) (d0 d : List anyval)
    (h : get_var vars id = none) :
    update_var (vars ++ [⟨id, d0⟩]) id d = vars ++ [⟨id, d⟩] := by
  induction vars with
  | nil => simp [update_var]
  | cons v vs ih =>
    by_cases hid : v.id = id
    · simp [get_var, hid] at h
    · simp only [get_var, hid, ite_false, if_neg, not_false_iff] at h
      simp [update_var, hid, ih h]

/-- `create_alias` acts on the alias variable's data exactly as
`create_alias_data`, creating the variable first when absent. -/
theorem create_alias_vars (vars : vars_t) (id value : Str) :
    alias_var_data (create_alias vars id value).1
      = create_alias_data (alias_var_data vars) id value := by
  cases hg : get_var vars ALIAS_VAR with
  | some v0 =>
    have hd : alias_var_data vars = v0.data := by simp [alias_var_data, hg]
    simp only [create_alias, get_or_add_var, hg, create_alias_data, hd]
    cases hl : create_alias_loop ⟨id, value⟩ id v0.data with
    | some d' => simp [alias_var_data, get_var_update d' vars ALIAS_VAR v0 hg]
    | none => simp [alias_var_data, get_var_update _ vars ALIAS_VAR v0 hg]
  | none =>
    have hd : alias_var_data vars = [] := by simp [alias_var_data, hg]
    simp only [create_alias, get_or_add_var, hg, create_alias_data, hd,
      create_alias_loop]
    rw [update_var_append vars ALIAS_VAR [] _ hg]
    simp [alias_var_data, get_var_append_self vars ALIAS_VAR _ hg]

theorem filter_eq_nil_of_not_mem_ids (l : List alias_t) (X : Str)
    (h : X ∉ l.map alias_t.id) :
    l.filter (fun a => decide (a.id = X)) = [] := by
  induction l with
  | nil => rfl
  | cons a l ih =>
    simp only [List.map_cons, List.mem_cons] at h
    push_neg at h
    have h1 : ¬ a.id = X := fun he => h.1 he.symm
    simp [List.filter_cons, h1, ih h.2]

theorem append_data_cons_alias (a : alias_t) (rest : List anyval)
    (na : alias_t) (hne : a ≠ na) :
    append_data cast_alias anyval.aliasv (anyval.aliasv a :: rest) na
      = anyval.aliasv a :: append_data cast_alias anyval.aliasv rest na := by
  have hc := append_data_char cast_alias anyval.aliasv
    (fun x e => cast_alias_eq_some e x)
  rw [hc, hc]
  have hbad : (∃ e ∈ anyval.aliasv a :: rest, cast_alias e = none)
      ↔ (∃ e ∈ rest, cast_alias e = none) := by
    constructor
    · rintro ⟨e, he, hce⟩
      rcases List.mem_cons.mp he with h | h
      · subst h; simp [cast_alias] at hce
      · exact ⟨e, h, hce⟩
    · rintro ⟨e, he, hce⟩
      exact ⟨e, List.mem_cons_of_mem _ he, hce⟩
  have hmem : (anyval.aliasv na ∈ anyval.aliasv a :: rest)
      ↔ anyval.aliasv na ∈ rest := by
    constructor
    · intro h
      rcases List.mem_cons.mp h with h | h
      · injection h with h'
        exact absurd h'.symm hne
      · exact h
    · exact fun h => List.mem_cons_of_mem _ h
  by_cases hb : ∃ e ∈ rest, cast_alias e = none
  · rw [if_pos (hbad.mpr hb), if_pos hb]
  · rw [if_neg (fun h => hb (hbad.mp h)), if_neg hb]
    by_cases hm : anyval.aliasv na ∈ rest
    · rw [if_pos (hmem.mpr hm), if_pos hm]
    · rw [if_neg (fun h => hm (hmem.mp h)), if_neg hm]
      simp

/-- The effect of one `lang::create_alias` call on a well-typed alias
data list: the entries stay alias-typed, the id list is unchanged when
the id was already present (replacement) and is extended by the id
otherwise (append), uniqueness of ids is preserved, and afterwards
exactly one entry bears the id — carrying the new value. -/
theorem create_alias_data_spec :
    ∀ (d : List anyval) (X v : Str),
      (∀ e ∈ d, (cast_alias e).isSome) →
      ((alias_entries d).map alias_t.id).Nodup →
      (∀ e ∈ create_alias_data d X v, (cast_alias e).isSome)
      ∧ ((alias_entries (create_alias_data d X v)).map alias_t.id)
          = (if X ∈ (alias_entries d).map alias_t.id
             then (alias_entries d).map alias_t.id
             else (alias_entries d).map alias_t.id ++ [X])
      ∧ ((alias_entries (create_alias_data d X v)).map alias_t.id).Nodup
      ∧ (alias_entries (create_alias_data d X v)).filter
          (fun a => decide (a.id = X)) = [⟨X, v⟩] := by
  intro d
  induction d with
  | nil =>
    intro X v _ _
    refine ⟨?_, ?_, ?_, ?_⟩ <;>
      simp [create_alias_data, create_alias_loop, append_data, append_data_loop,
        alias_entries, cast_alias]
  | cons e rest ih =>
    intro X v hty hnodup
    obtain ⟨a, ha⟩ : ∃ a, e = anyval.aliasv a := by
      have h := hty e (List.mem_cons_self e rest)
      cases e with
      | aliasv a => exact ⟨a, rfl⟩
      | strv s => simp [cast_alias] at h
    subst ha
    have hty' : ∀ e ∈ rest, (cast_alias e).isSome :=
      fun e he => hty e (List.mem_cons_of_mem _ he)
    have hids : alias_entries (anyval.aliasv a :: rest) = a :: alias_entries rest := by
      simp [alias_entries, cast_alias]
    rw [hids] at hnodup
    simp only [List.map_cons, List.nodup_cons] at hnodup
    obtain ⟨hnotin, hnodup'⟩ := hnodup
    by_cases hX : a.id = X
    · have hcad : create_alias_data (anyval.aliasv a :: rest) X v
          = anyval.aliasv ⟨X, v⟩ :: rest := by
        simp [create_alias_data, create_alias_loop, cast_alias, hX]
      rw [hcad]
      subst hX
      have hids2 : alias_entries (anyval.aliasv ⟨a.id, v⟩ :: rest)
          = ⟨a.id, v⟩ :: alias_entries rest := by
        simp [alias_entries, cast_alias]
      refine ⟨?_, ?_, ?_, ?_⟩
      · intro e he
        rcases List.mem_cons.mp he with h | h
        · subst h; simp [cast_alias]
        · exact hty' e h
      · rw [hids2, hids]
        simp only [List.map_cons]
        rw [if_pos (List.mem_cons_self _ _)]
      · rw [hids2]
        simp only [List.map_cons, List.nodup_cons]
        exact ⟨hnotin, hnodup'⟩
      · rw [hids2]
        simp only [List.filter_cons, decide_eq_true_eq]
        rw [if_pos (by simp)]
        rw [filter_eq_nil_of_not_mem_ids _ _ hnotin]
    · have hcad : create_alias_data (anyval.aliasv a :: rest) X v
          = anyval.aliasv a :: create_alias_data rest X v := by
        simp only [create_alias_data, create_alias_loop, cast_alias]
        rw [if_neg hX]
        cases hl : create_alias_loop ⟨X, v⟩ X rest with
        | some r' => rfl
        | none =>
          exact append_data_cons_alias a rest ⟨X, v⟩
            (fun he => hX (by rw [he]))
      rw [hcad]
      obtain ⟨ih1, ih2, ih3, ih4⟩ := ih X v hty' hnodup'
      have hids3 : alias_entries (anyval.aliasv a :: create_alias_data rest X v)
          = a :: alias_entries (create_alias_data rest X v) := by
        simp [alias_entries, cast_alias]
      refine ⟨?_, ?_, ?_, ?_⟩
      · intro e he
        rcases List.mem_cons.mp he with h | h
        · subst h; simp [cast_alias]
        · exact ih1 e h
      · rw [hids3, hids]
        simp only [List.map_cons, ih2]
        by_cases hm : X ∈ (alias_entries rest).map alias_t.id
        · rw [if_pos hm, if_pos (List.mem_cons_of_mem _ hm)]
        · rw [if_neg hm, if_neg (by
            intro hc
            rcases List.mem_cons.mp hc with h | h
            · exact hX h.symm
            · exact hm h)]
          simp
      · rw [hids3]
        simp only [List.map_cons, List.nodup_cons]
        refine ⟨?_, ih3⟩
        rw [ih2]
        by_cases hm : X ∈ (alias_entries rest).map alias_t.id
        · rw [if_pos hm]; exact hnotin
        · rw [if_neg hm]
          intro hc
          rcases List.mem_append.mp hc with h | h
          · exact hnotin h
          · exact hX (List.mem_singleton.mp h)
      · rw [hids3]
        simp only [List.filter_cons, decide_eq_true_eq]
        rw [if_neg hX]
        exact ih4

/-- C7: redefining an alias replaces in place.  For every variable
store whose "alias" variable holds only alias entries with pairwise
distinct ids, after `create_alias(X, v1)` followed by
`create_alias(X, v2)` the alias variable contains exactly one entry
with id X, bearing value v2, and the ids are still pairwise distinct
(no duplicate ids are ever stored). -/
theorem C7_alias_redefinition (vars : vars_t) (X v1 v2 : Str)
    (hty : ∀ e ∈ alias_var_data vars, (cast_alias e).isSome)
    (hnodup : ((alias_entries (alias_var_data vars)).map alias_t.id).Nodup)
    (hne : v1 ≠ v2) :
    ((alias_entries (alias_var_data (create_alias (create_alias vars X v1).1 X v2).1)).filter
        (fun a => decide (a.id = X)) = [⟨X, v2⟩])
    ∧ ((alias_entries (alias_var_data (create_alias (create_alias vars X v1).1 X v2).1)).map
        alias_t.id).Nodup := by
  have h1 := create_alias_data_spec (alias_var_data vars) X v1 hty hnodup
  rw [create_alias_vars, create_alias_vars]
  have h2 := create_alias_data_spec (create_alias_data (alias_var_data vars) X v1)
    X v2 h1.1 h1.2.2.1
  exact ⟨h2.2.2.2, h2.2.2.1⟩

theorem C7_alias_redefinition_witness :
    ((∀ e ∈ alias_var_data [⟨ALIAS_VAR, [anyval.aliasv ⟨str "B", str "w"⟩]⟩],
        (cast_alias e).isSome)
      ∧ ((alias_entries (alias_var_data
          [⟨ALIAS_VAR, [anyval.aliasv ⟨str "B", str "w"⟩]⟩])).map alias_t.id).Nodup
      ∧ str "1" ≠ str "2")
    ∧ (((alias_entries (alias_var_data
          (create_alias (create_alias [⟨ALIAS_VAR, [anyval.aliasv ⟨str "B", str "w"⟩]⟩]
            (str "A") (str "1")).1 (str "A") (str "2")).1)).filter
          (fun a => decide (a.id = str "A")) = [⟨str "A", str "2"⟩])
      ∧ ((alias_entries (alias_var_data
          (create_alias (create_alias [⟨ALIAS_VAR, [anyval.aliasv ⟨str "B", str "w"⟩]⟩]
            (str "A") (str "1")).1 (str "A") (str "2")).1)).map alias_t.id).Nodup) :=
  ⟨⟨by decide, by decide, by decide⟩,
   C7_alias_redefinition [⟨ALIAS_VAR, [anyval.aliasv ⟨str "B", str "w"⟩]⟩]
     (str "A") (str "1") (str "2") (by decide) (by decide) (by decide)⟩

theorem string_split_eq_single (delim : Char) (s : Str) (h : delim ∉ s) :
    string_split delim s = [s] := by
  induction s with
  | nil => rfl
  | cons c rest ih =>
    simp only [List.mem_cons] at h
    push_neg at h
    simp only [string_split]
    rw [if_neg (fun he => h.1 he.symm), ih h.2]

theorem string_split_append (delim : Char) (a b : Str) (h : delim ∉ a) :
    string_split delim (a ++ delim :: b) = a :: string_split delim b := by
  induction a with
  | nil => simp [string_split]
  | cons c a' ih =>
    simp only [List.mem_cons] at h
    push_neg at h
    show string_split delim (c :: (a' ++ delim :: b)) = _
    simp only [string_split]
    rw [if_neg (fun he => h.1 he.symm), ih h.2]

theorem ext_nil_buffer (st st' : ExecState) (h : st'.task_buffer = st.task_buffer) :
    ∃ qs, st'.task_buffer = st.task_buffer ++ qs
      ∧ ∀ t ∈ qs, st.next_tag ≤ t.tag ∧ t.tag < st'.next_tag :=
  ⟨[], by rw [h, List.append_nil], fun t ht => absurd ht (List.not_mem_nil t)⟩

theorem ext_nil_trace (st st' : ExecState) (h : st'.trace = st.trace) :
    ∃ Δ, st'.trace = st.trace ++ Δ
      ∧ ∀ e ∈ Δ, event_tag e = st.current_tag ∧ is_dispatch e = false :=
  ⟨[], by rw [h, List.append_nil], fun e he => absurd he (List.not_mem_nil e)⟩

theorem frame_core_refl (st : ExecState) : frame_core st st :=
  ⟨rfl, rfl, rfl, rfl, rfl, le_rfl, ext_nil_buffer st st rfl⟩

theorem frame_core_trans {s1 s2 s3 : ExecState}
    (h1 : frame_core s1 s2) (h2 : frame_core s2 s3) : frame_core s1 s3 := by
  obtain ⟨a1, b1, c1, d1, e1, f1, qs1, hq1, hf1⟩ := h1
  obtain ⟨a2, b2, c2, d2, e2, f2, qs2, hq2, hf2⟩ := h2
  refine ⟨a2.trans a1, b2.trans b1, c2.trans c1, d2.trans d1, e2.trans e1,
    le_trans f1 f2, qs1 ++ qs2, ?_, ?_⟩
  · rw [hq2, hq1, List.append_assoc]
  · intro t ht
    rcases List.mem_append.mp ht with h | h
    · obtain ⟨hl, hr⟩ := hf1 t h
      exact ⟨hl, lt_of_lt_of_le hr f2⟩
    · obtain ⟨hl, hr⟩ := hf2 t h
      exact ⟨le_trans f1 hl, hr⟩

theorem trace_ext_nd_refl (st : ExecState) : trace_ext_nd st st :=
  ext_nil_trace st st rfl

theorem trace_ext_nd_trans {s1 s2 s3 : ExecState}
    (hct : s2.current_tag = s1.current_tag)
    (h1 : trace_ext_nd s1 s2) (h2 : trace_ext_nd s2 s3) : trace_ext_nd s1 s3 := by
  obtain ⟨d1, ht1, he1⟩ := h1
  obtain ⟨d2, ht2, he2⟩ := h2
  refine ⟨d1 ++ d2, by rw [ht2, ht1, List.append_assoc], ?_⟩
  intro e he
  rcases List.mem_append.mp he with h | h
  · exact he1 e h
  · obtain ⟨hl, hr⟩ := he2 e h
    exact ⟨hct ▸ hl, hr⟩

theorem exec_handler_frame (fs : fs_t) (h : handler_t) (st : ExecState)
    (args : List Str) :
    frame_core st (exec_handler fs h st args).1
    ∧ (exec_handler fs h st args).1.trace = st.trace := by
  cases h with
  | out => exact ⟨⟨rfl, rfl, rfl, rfl, rfl, le_rfl, ext_nil_buffer st _ rfl⟩, rfl⟩
  | ls => exact ⟨⟨rfl, rfl, rfl, rfl, rfl, le_rfl, ext_nil_buffer st _ rfl⟩, rfl⟩
  | curdir =>
    simp only [exec_handler]
    split
    · exact ⟨frame_core_refl st, rfl⟩
    · exact ⟨frame_core_refl st, rfl⟩
  | alias_def =>
    exact ⟨⟨rfl, rfl, rfl, rfl, rfl, le_rfl, ext_nil_buffer st _ rfl⟩, rfl⟩
  | aliasApply =>
    simp only [exec_handler]
    split
    · exact ⟨frame_core_refl st, rfl⟩
    · cases hg : get_var st.exec_vars ALIAS_VAR with
      | none => exact ⟨frame_core_refl st, rfl⟩
      | some v =>
        exact ⟨⟨rfl, rfl, rfl, rfl, rfl, le_rfl, ext_nil_buffer st _ rfl⟩, rfl⟩
  | source =>
    simp only [exec_handler]
    cases hr : fs.read (args.headD []) with
    | none => exact ⟨frame_core_refl st, rfl⟩
    | some content =>
      refine ⟨⟨rfl, rfl, rfl, rfl, rfl, Nat.le_succ _,
        ⟨[⟨content, st.next_tag⟩], rfl, ?_⟩⟩, rfl⟩
      intro t ht
      rw [List.mem_singleton.mp ht]
      exact ⟨le_rfl, Nat.lt_succ_self _⟩

theorem delegate_call_frame (fs : fs_t) (args : List Str) :
    ∀ (hs : List handler_t) (st : ExecState),
      frame_core st (delegate_call fs args st hs).1
      ∧ trace_ext_nd st (delegate_call fs args st hs).1 := by
  intro hs
  induction hs with
  | nil => intro st; exact ⟨frame_core_refl st, trace_ext_nd_refl st⟩
  | cons h hs ih =>
    intro st
    simp only [delegate_call]
    set st1 : ExecState :=
      { st with trace := st.trace ++ [.invoked st.current_tag h args] } with hst1
    obtain ⟨hf2, ht2⟩ := exec_handler_frame fs h st1 args
    cases hE : exec_handler fs h st1 args with
    | mk st2 code =>
      rw [hE] at hf2 ht2
      simp only at hf2 ht2
      obtain ⟨hf3, ht3⟩ := ih st2
      cases hD : delegate_call fs args st2 hs with
      | mk st3 codes =>
        rw [hD] at hf3 ht3
        simp only at hf3 ht3
        have hf1 : frame_core st st1 :=
          ⟨rfl, rfl, rfl, rfl, rfl, le_rfl, ext_nil_buffer st st1 rfl⟩
        have ht1 : trace_ext_nd st st1 :=
          ⟨[.invoked st.current_tag h args], rfl, by simp [event_tag, is_dispatch]⟩
        have hnd2 : trace_ext_nd st1 st2 := ext_nil_trace st1 st2 ht2
        refine ⟨frame_core_trans (frame_core_trans hf1 hf2) hf3, ?_⟩
        exact trace_ext_nd_trans (hf2.2.2.2.2.1.trans hf1.2.2.2.2.1)
          (trace_ext_nd_trans hf1.2.2.2.2.1 ht1 hnd2) ht3

theorem push_error_frame (st : ExecState) (msg : Str) (line : Nat) :
    frame_core st (push_error st msg line)
    ∧ trace_ext_nd st (push_error st msg line) :=
  ⟨⟨rfl, rfl, rfl, rfl, rfl, le_rfl, ext_nil_buffer st _ rfl⟩,
   ⟨[.diag st.current_tag msg line], rfl, by simp [event_tag, is_dispatch]⟩⟩

theorem attempt_frame (fs : fs_t) (c : command_t) (st : ExecState)
    (tokens : List Str) (line : Nat) :
    frame_core st (attempt_parse_and_exec fs c st tokens line).1
    ∧ trace_ext_nd st (attempt_parse_and_exec fs c st tokens line).1 := by
  simp only [attempt_parse_and_exec]
  split
  · exact ⟨frame_core_refl st, trace_ext_nd_refl st⟩
  · split
    · exact push_error_frame st _ line
    · split
      · exact push_error_frame st _ line
      · exact delegate_call_frame fs (tokens.drop 1) c.handlers st

theorem direct_exec_loop_frame (fs : fs_t) (parsed : List Str) (line : Nat) :
    ∀ (cs : List command_t) (st : ExecState) (res : List Nat),
      frame_core st (direct_exec_loop fs parsed line st res cs).1
      ∧ trace_ext_nd st (direct_exec_loop fs parsed line st res cs).1 := by
  intro cs
  induction cs with
  | nil => intro st res; exact ⟨frame_core_refl st, trace_ext_nd_refl st⟩
  | cons c cs ih =>
    intro st res
    simp only [direct_exec_loop]
    obtain ⟨hf1, ht1⟩ := attempt_frame fs c st parsed line
    cases hA : attempt_parse_and_exec fs c st parsed line with
    | mk st1 r =>
      rw [hA] at hf1 ht1
      simp only at hf1 ht1
      obtain ⟨hf2, ht2⟩ := ih st1 (if r.length = 0 then res else r)
      exact ⟨frame_core_trans hf1 hf2,
        trace_ext_nd_trans hf1.2.2.2.2.1 ht1 ht2⟩

theorem filter_eq_nil_of_all_false {α : Type} (p : α → Bool) :
    ∀ (l : List α), (∀ a ∈ l, p a = false) → l.filter p = [] := by
  intro l
  induction l with
  | nil => intro _; rfl
  | cons a l ih =>
    intro h
    simp only [List.filter_cons, h a (List.mem_cons_self a l), ite_false, if_neg,
      Bool.false_eq_true, not_false_iff]
    exact ih (fun a ha => h a (List.mem_cons_of_mem _ ha))

theorem find_and_push_error_frame (st : ExecState) (command : Str)
    (code : Nat) (line : Nat) :
    frame_core st (find_and_push_error st command code line)
    ∧ trace_ext_nd st (find_and_push_error st command code line) := by
  unfold find_and_push_error
  split
  · exact push_error_frame st _ line
  · split
    · exact push_error_frame st _ line
    · exact push_error_frame st _ line

theorem direct_exec_statement_frame (fs : fs_t) (st : ExecState)
    (stmt : Str) (line : Nat) :
    frame_core st (direct_exec_statement fs st stmt line)
    ∧ ∃ Δ, (direct_exec_statement fs st stmt line).trace
        = st.trace ++ event_t.dispatch st.current_tag stmt :: Δ
      ∧ ∀ e ∈ Δ, event_tag e = st.current_tag ∧ is_dispatch e = false := by
  have hne : ¬ (string_split ' ' stmt).length = 0 :=
    fun hl => string_split_ne_nil ' ' stmt (List.length_eq_zero.mp hl)
  simp only [direct_exec_statement, hne, ite_false, if_false]
  set st1 : ExecState :=
    { st with trace := st.trace ++ [.dispatch st.current_tag stmt] } with hst1
  have hf01 : frame_core st st1 :=
    ⟨rfl, rfl, rfl, rfl, rfl, le_rfl, ext_nil_buffer st st1 rfl⟩
  have hct1 : st1.current_tag = st.current_tag := rfl
  obtain ⟨hfL, htL⟩ := direct_exec_loop_frame fs (string_split ' ' stmt) line
    st1.loaded_commands st1 []
  cases hL : direct_exec_loop fs (string_split ' ' stmt) line st1 []
      st1.loaded_commands with
  | mk st2 res =>
    rw [hL] at hfL htL
    simp only at hfL htL
    have tr1 : ∀ (st3 : ExecState), frame_core st2 st3 → trace_ext_nd st2 st3 →
        frame_core st st3
        ∧ ∃ Δ, st3.trace = st.trace ++ event_t.dispatch st.current_tag stmt :: Δ
          ∧ ∀ e ∈ Δ, event_tag e = st.current_tag ∧ is_dispatch e = false := by
      intro st3 hf3 ht3
      refine ⟨frame_core_trans (frame_core_trans hf01 hfL) hf3, ?_⟩
      obtain ⟨Δ1, hΔ1, he1⟩ := htL
      obtain ⟨Δ2, hΔ2, he2⟩ := ht3
      refine ⟨Δ1 ++ Δ2, ?_, ?_⟩
      · rw [hΔ2, hΔ1, hst1]
        simp [List.append_assoc]
      · intro e he
        rcases List.mem_append.mp he with h | h
        · exact he1 e h
        · obtain ⟨hl, hr⟩ := he2 e h
          rw [hfL.2.2.2.2.1, hct1] at hl
          exact ⟨hl, hr⟩
    split
    · exact tr1 st2 (frame_core_refl st2) (trace_ext_nd_refl st2)
    · split
      · exact tr1 st2 (frame_core_refl st2) (trace_ext_nd_refl st2)
      · exact tr1 _ (find_and_push_error_frame st2 _ _ line).1
          (find_and_push_error_frame st2 _ _ line).2

theorem direct_exec_from_frame (fs : fs_t) :
    ∀ (stmts : List Str) (st : ExecState) (line : Nat),
      frame_core st (direct_exec_from fs st line stmts)
      ∧ ∃ Δ, (direct_exec_from fs st line stmts).trace = st.trace ++ Δ
        ∧ (∀ e ∈ Δ, event_tag e = st.current_tag)
        ∧ Δ.filter is_dispatch = stmts.map (event_t.dispatch st.current_tag) := by
  intro stmts
  induction stmts with
  | nil =>
    intro st line
    exact ⟨frame_core_refl st, [], by simp [direct_exec_from], by simp, by simp⟩
  | cons stmt rest ih =>
    intro st line
    simp only [direct_exec_from]
    obtain ⟨hf1, Δ1, ht1, hd1⟩ := direct_exec_statement_frame fs st stmt line
    obtain ⟨hf2, Δ2, ht2, he2, hd2⟩ :=
      ih (direct_exec_statement fs st stmt line) (line + 1)
    have hct : (direct_exec_statement fs st stmt line).current_tag
        = st.current_tag := hf1.2.2.2.2.1
    refine ⟨frame_core_trans hf1 hf2,
      (event_t.dispatch st.current_tag stmt :: Δ1) ++ Δ2, ?_, ?_, ?_⟩
    · rw [ht2, ht1]
      simp [List.append_assoc]
    · intro e he
      rcases List.mem_append.mp he with h | h
      · rcases List.mem_cons.mp h with h | h
        · rw [h]; rfl
        · exact (hd1 e h).1
      · rw [← hct]
        exact he2 e h
    · rw [List.filter_append, List.map_cons]
      simp only [List.filter_cons, is_dispatch, ite_true, if_pos]
      rw [filter_eq_nil_of_all_false is_dispatch Δ1 (fun e he => (hd1 e he).2)]
      rw [hd2, hct]
      rfl

theorem run_definer_frame (st : ExecState) (d : definer_t) :
    frame_core st (run_definer st d) ∧ (run_definer st d).trace = st.trace := by
  cases d with
  | lang_preprocessor =>
    exact ⟨⟨rfl, rfl, rfl, rfl, rfl, le_rfl, ext_nil_buffer st _ rfl⟩, rfl⟩
  | lang_command =>
    exact ⟨⟨rfl, rfl, rfl, rfl, rfl, le_rfl, ext_nil_buffer st _ rfl⟩, rfl⟩

theorem foldl_run_definer_frame :
    ∀ (ds : List definer_t) (st : ExecState),
      frame_core st (List.foldl run_definer st ds)
      ∧ (List.foldl run_definer st ds).trace = st.trace
      ∧ (List.foldl run_definer st ds).current_tag = st.current_tag := by
  intro ds
  induction ds with
  | nil => intro st; exact ⟨frame_core_refl st, rfl, rfl⟩
  | cons d ds ih =>
    intro st
    simp only [List.foldl_cons]
    obtain ⟨hf1, ht1⟩ := run_definer_frame st d
    obtain ⟨hf2, ht2, hc2⟩ := ih (run_definer st d)
    exact ⟨frame_core_trans hf1 hf2, ht2.trans ht1,
      hc2.trans hf1.2.2.2.2.1⟩

theorem command_pass_frame (fs : fs_t) (st : ExecState)
    (definers : List definer_t) (stmts : List Str) :
    frame_core st (command_pass fs st definers stmts)
    ∧ ∃ Δ, (command_pass fs st definers stmts).trace = st.trace ++ Δ
      ∧ (∀ e ∈ Δ, event_tag e = st.current_tag)
      ∧ Δ.filter is_dispatch = stmts.map (event_t.dispatch st.current_tag) := by
  simp only [command_pass, direct_exec]
  set stA : ExecState := { st with loaded_commands := [] } with hstA
  have hfA : frame_core st stA :=
    ⟨rfl, rfl, rfl, rfl, rfl, le_rfl, ext_nil_buffer st stA rfl⟩
  obtain ⟨hfB, htB, hcB⟩ := foldl_run_definer_frame definers stA
  obtain ⟨hfC, Δ, htC, heC, hdC⟩ :=
    direct_exec_from_frame fs stmts (List.foldl run_definer stA definers) 0
  refine ⟨frame_core_trans (frame_core_trans hfA hfB) hfC, Δ, ?_, ?_, ?_⟩
  · rw [htC, htB, hstA]
  · intro e he
    rw [← hcB]
    exact heC e he
  · rw [hdC, hcB]

theorem auto_preprocessors_frame (fs : fs_t) (st : ExecState) :
    frame_core st (auto_preprocessors fs st)
    ∧ ∃ Δ, (auto_preprocessors fs st).trace = st.trace ++ Δ
      ∧ ∀ e ∈ Δ, event_tag e = st.current_tag := by
  simp only [auto_preprocessors, direct_exec]
  cases hg : get_or_add_var st.exec_vars AUTO_PREPROCESSOR_VAR with
  | mk vars data =>
    simp only
    set stV : ExecState := { st with exec_vars := vars } with hstV
    have hfV : frame_core st stV :=
      ⟨rfl, rfl, rfl, rfl, rfl, le_rfl, ext_nil_buffer st stV rfl⟩
    obtain ⟨hfD, Δ, htD, heD, _⟩ :=
      direct_exec_from_frame fs (data.filterMap cast_str) stV 0
    refine ⟨frame_core_trans hfV hfD, Δ, ?_, ?_⟩
    · rw [htD, hstV]
    · intro e he
      exact heD e he

theorem exec_task_eq_stages (fs : fs_t) (st : ExecState) (task : task_t) :
    exec_task fs st task = command_pass fs
      { exec_task_stage2 fs st task with
        current_script :=
          string_split_residue '\n' (exec_task_stage2 fs st task).current_script }
      (exec_task_stage2 fs st task).additional_commands
      (string_split '\n' (exec_task_stage2 fs st task).current_script) := by
  unfold exec_task exec_task_stage2 exec_task_stage1 exec_task_stage0
  rfl

/-- One task execution: the definers, live queue and busy flag are
untouched, queued tasks get fresh tags, and the trace grows by events
all tagged with this task, whose dispatch markers start with exactly
the task's statements in order. -/
theorem exec_task_frame (fs : fs_t) (st : ExecState) (task : task_t) :
    (exec_task fs st task).additional_preprocessors = st.additional_preprocessors
    ∧ (exec_task fs st task).additional_commands = st.additional_commands
    ∧ (exec_task fs st task).tasks = st.tasks
    ∧ (exec_task fs st task).busy = st.busy
    ∧ st.next_tag ≤ (exec_task fs st task).next_tag
    ∧ (∃ qs, (exec_task fs st task).task_buffer = st.task_buffer ++ qs
        ∧ ∀ t ∈ qs, st.next_tag ≤ t.tag ∧ t.tag < (exec_task fs st task).next_tag)
    ∧ ∃ Δ, (exec_task fs st task).trace = st.trace ++ Δ
        ∧ (∀ e ∈ Δ, event_tag e = task.tag)
        ∧ ∃ Δ2, Δ.filter is_dispatch
            = (string_split '\n' task.script).map (event_t.dispatch task.tag) ++ Δ2 := by
  obtain ⟨hf1, Δ1, ht1, he1, hd1⟩ := command_pass_frame fs (exec_task_stage0 st task)
    (exec_task_stage0 st task).additional_preprocessors (string_split '\n' task.script)
  have hs1 : exec_task_stage1 fs st task = command_pass fs (exec_task_stage0 st task)
      (exec_task_stage0 st task).additional_preprocessors (string_split '\n' task.script) := rfl
  rw [← hs1] at hf1 ht1
  obtain ⟨hf2, Δ2, ht2, he2⟩ := auto_preprocessors_frame fs (exec_task_stage1 fs st task)
  have hs2 : exec_task_stage2 fs st task
      = auto_preprocessors fs (exec_task_stage1 fs st task) := rfl
  rw [← hs2] at hf2 ht2
  have hf2x : frame_core (exec_task_stage2 fs st task)
      { exec_task_stage2 fs st task with
        current_script :=
          string_split_residue '\n' (exec_task_stage2 fs st task).current_script } :=
    ⟨rfl, rfl, rfl, rfl, rfl, le_rfl, ext_nil_buffer _ _ rfl⟩
  obtain ⟨hf3, Δ3, ht3, he3, hd3⟩ := command_pass_frame fs
    { exec_task_stage2 fs st task with
      current_script :=
        string_split_residue '\n' (exec_task_stage2 fs st task).current_script }
    (exec_task_stage2 fs st task).additional_commands
    (string_split '\n' (exec_task_stage2 fs st task).current_script)
  rw [← exec_task_eq_stages fs st task] at hf3 ht3
  have hfAll : frame_core (exec_task_stage0 st task) (exec_task fs st task) :=
    frame_core_trans hf1 (frame_core_trans hf2 (frame_core_trans hf2x hf3))
  obtain ⟨hA, hB, hC, hD, hctAll, hNext, qs, hq, hfr⟩ := hfAll
  have hct1 : (exec_task_stage1 fs st task).current_tag = task.tag := hf1.2.2.2.2.1
  have hct2 : (exec_task_stage2 fs st task).current_tag = task.tag :=
    (hf2.2.2.2.2.1).trans hct1
  have ht3x : (exec_task fs st task).trace
      = (exec_task_stage2 fs st task).trace ++ Δ3 := ht3
  have ht1x : (exec_task_stage1 fs st task).trace = st.trace ++ Δ1 := ht1
  refine ⟨hA, hB, hC, hD, hNext, ⟨qs, hq, hfr⟩, Δ1 ++ (Δ2 ++ Δ3), ?_, ?_, ?_⟩
  · rw [ht3x, ht2, ht1x, List.append_assoc, List.append_assoc]
  · intro e he
    rcases List.mem_append.mp he with h | h
    · exact he1 e h
    · rcases List.mem_append.mp h with h | h
      · exact (he2 e h).trans hct1
      · exact ((he3 e h : event_tag e = (exec_task_stage2 fs st task).current_tag)).trans hct2
  · refine ⟨Δ2.filter is_dispatch ++ Δ3.filter is_dispatch, ?_⟩
    rw [List.filter_append, List.filter_append]
    have hd1x : Δ1.filter is_dispatch
        = (string_split '\n' task.script).map (event_t.dispatch task.tag) := hd1
    rw [hd1x]

/-- C1 (counterexample): in the spec §8 scenario the `alias_def`
handler concatenates "hello" and "world" with no separator, so the
alias value is "helloworld"; the `out` handler therefore receives the
single token [helloworld], not [hello, world], and the observable
output is "helloworld \n", not "hello world \n". -/
theorem C1_out_scenario_counterexample :
    ¬ (out_invocations scenario_alias_out = [[str "hello", str "world"]]
        ∧ scenario_alias_out.stdout = str "hello world \n") := by
  decide

/-- C1 (amended): after `submit("alias_def GREETING hello world")` then
`submit("out $GREETING")` on the same executor, the `out` handler
receives exactly the token sequence [helloworld] and the observable
output is exactly "helloworld " followed by a line break, with no
diagnostics emitted. -/
theorem C1_out_scenario_amended :
    out_invocations scenario_alias_out = [[str "helloworld"]]
      ∧ scenario_alias_out.stdout = str "helloworld \n"
      ∧ scenario_alias_out.diags = [] := by
  decide

end DSSModel

namespace DSSModel

theorem src_statement_exec (fs : fs_t) (F cF : Str)
    (hF : ' ' ∉ F) (hread : fs.read F = some cF) :
    ∀ (st : ExecState), st.loaded_commands = lang_preproc_commands →
    direct_exec_statement fs st (str "src " ++ F) 0 =
      { st with
        trace := st.trace ++ [.dispatch st.current_tag (str "src " ++ F),
          .invoked st.current_tag .source [F]]
        task_buffer := st.task_buffer ++ [⟨cF, st.next_tag⟩]
        next_tag := st.next_tag + 1 } := by
  have hsp : string_split ' ' (str "src " ++ F) = [str "src", F] := by
    have h1 : str "src " ++ F = str "src" ++ ' ' :: F := rfl
    rw [h1, string_split_append ' ' (str "src") F (by decide),
      string_split_eq_single ' ' F hF]
  have hdel : ∀ (s : ExecState), delegate_call fs [F] s [handler_t.source]
      = ({ s with
          trace := s.trace ++ [.invoked s.current_tag .source [F]]
          task_buffer := s.task_buffer ++ [⟨cF, s.next_tag⟩]
          next_tag := s.next_tag + 1 }, [0]) := by
    intro s
    simp only [delegate_call, exec_handler]
    rw [show ([F] : List Str).headD [] = F from rfl, hread]
    simp [queue_task]
  have hatt1 : ∀ (s : ExecState),
      attempt_parse_and_exec fs
        ⟨[.source], str "src", str "runs a dss script at path <path>", 1, 1⟩
        s [str "src", F] 0
      = delegate_call fs [F] s [handler_t.source] := by
    intro s
    refine attempt_ok fs _ s _ 0 rfl ?_ ?_
    · intro hc
      have h2 := hc.2
      rw [show (([str "src", F] : List Str).drop 1).length = 1 from rfl,
        int32_of_nat_small 1 (by norm_num)] at h2
      exact absurd h2 (by decide)
    · intro hc
      have h2 := hc.2
      rw [show (([str "src", F] : List Str).drop 1).length = 1 from rfl,
        int32_of_nat_small 1 (by norm_num)] at h2
      exact absurd h2 (by decide)
  have hatt2 : ∀ (s : ExecState),
      attempt_parse_and_exec fs
        ⟨[.alias_def], str "alias_def", str "creates an alias", 2, -1⟩
        s [str "src", F] 0 = (s, []) := by
    have hne2 : str "src" ≠ str "alias_def" := by decide
    exact fun s => attempt_no_match fs _ s _ 0 hne2
  have hatt3 : ∀ (s : ExecState),
      attempt_parse_and_exec fs
        ⟨[.aliasApply], str "alias", str "applies aliases", -1, -1⟩
        s [str "src", F] 0 = (s, []) := by
    have hne3 : str "src" ≠ str "alias" := by decide
    exact fun s => attempt_no_match fs _ s _ 0 hne3
  have hloop : ∀ (s : ExecState),
      direct_exec_loop fs [str "src", F] 0 s [] lang_preproc_commands
      = ({ s with
          trace := s.trace ++ [.invoked s.current_tag .source [F]]
          task_buffer := s.task_buffer ++ [⟨cF, s.next_tag⟩]
          next_tag := s.next_tag + 1 }, [0]) := by
    intro s
    simp [lang_preproc_commands, direct_exec_loop, hatt1, hdel, hatt2, hatt3]
  intro st hld
  have hne : ¬ (string_split ' ' (str "src " ++ F)).length = 0 := by
    rw [hsp]; simp
  simp only [direct_exec_statement, hsp, hne, ite_false, if_false]
  rw [hld]
  simp only [hloop]
  simp [List.append_assoc]

end DSSModel

namespace DSSModel

theorem preproc_pass_src (fs : fs_t) (F cF S : Str)
    (hF1 : ' ' ∉ F) (hread : fs.read F = some cF) :
    ∀ (st : ExecState), st.loaded_commands = lang_preproc_commands →
    ∃ qs Δ,
      (direct_exec_from fs st 0 ((str "src " ++ F) :: string_split '\n' S)).additional_preprocessors = st.additional_preprocessors
      ∧ (direct_exec_from fs st 0 ((str "src " ++ F) :: string_split '\n' S)).additional_commands = st.additional_commands
      ∧ (direct_exec_from fs st 0 ((str "src " ++ F) :: string_split '\n' S)).tasks = st.tasks
      ∧ (direct_exec_from fs st 0 ((str "src " ++ F) :: string_split '\n' S)).busy = st.busy
      ∧ st.next_tag + 1 ≤ (direct_exec_from fs st 0 ((str "src " ++ F) :: string_split '\n' S)).next_tag
      ∧ (direct_exec_from fs st 0 ((str "src " ++ F) :: string_split '\n' S)).task_buffer
          = st.task_buffer ++ ⟨cF, st.next_tag⟩ :: qs
      ∧ (∀ t ∈ qs, st.next_tag + 1 ≤ t.tag
          ∧ t.tag < (direct_exec_from fs st 0 ((str "src " ++ F) :: string_split '\n' S)).next_tag)
      ∧ (direct_exec_from fs st 0 ((str "src " ++ F) :: string_split '\n' S)).current_tag = st.current_tag
      ∧ (direct_exec_from fs st 0 ((str "src " ++ F) :: string_split '\n' S)).trace = st.trace ++ Δ
      ∧ (∀ e ∈ Δ, event_tag e = st.current_tag)
      ∧ Δ.filter is_dispatch
          = ((str "src " ++ F) :: string_split '\n' S).map (event_t.dispatch st.current_tag) := by
  intro st hld
  simp only [direct_exec_from]
  rw [src_statement_exec fs F cF hF1 hread st hld]
  obtain ⟨hfD, ΔD, htD, heD, hdD⟩ := direct_exec_from_frame fs (string_split '\n' S)
    { st with
      trace := st.trace ++ [.dispatch st.current_tag (str "src " ++ F),
        .invoked st.current_tag .source [F]]
      task_buffer := st.task_buffer ++ [⟨cF, st.next_tag⟩]
      next_tag := st.next_tag + 1 } 1
  obtain ⟨hap, hac, htk, hbs, hct, hnx, qsD, hq, hfr⟩ := hfD
  refine ⟨qsD,
    [.dispatch st.current_tag (str "src " ++ F),
     .invoked st.current_tag .source [F]] ++ ΔD, hap, hac, htk, hbs, hnx, ?_, ?_, hct, ?_, ?_, ?_⟩
  · rw [hq]
    simp [List.append_assoc]
  · intro t ht
    exact hfr t ht
  · rw [htD]
    simp [List.append_assoc]
  · intro e he
    rcases List.mem_append.mp he with h | h
    · rcases List.mem_cons.mp h with h | h
      · rw [h]; rfl
      · rcases List.mem_cons.mp h with h | h
        · rw [h]; rfl
        · exact absurd h (List.not_mem_nil e)
    · exact heD e h
  · rw [List.filter_append, hdD]
    simp [is_dispatch]

end DSSModel

namespace DSSModel

theorem exec_task_src_first (fs : fs_t) (st : ExecState) (F cF S : Str) (tg : Nat)
    (hpre : st.additional_preprocessors = [.lang_preprocessor])
    (hF1 : ' ' ∉ F) (hF2 : '\n' ∉ F) (hread : fs.read F = some cF) :
    ∃ qs Δ,
      (exec_task fs st ⟨str "src " ++ F ++ str "\n" ++ S, tg⟩).additional_preprocessors
          = st.additional_preprocessors
      ∧ (exec_task fs st ⟨str "src " ++ F ++ str "\n" ++ S, tg⟩).additional_commands
          = st.additional_commands
      ∧ (exec_task fs st ⟨str "src " ++ F ++ str "\n" ++ S, tg⟩).tasks = st.tasks
      ∧ (exec_task fs st ⟨str "src " ++ F ++ str "\n" ++ S, tg⟩).busy = st.busy
      ∧ st.next_tag + 1 ≤ (exec_task fs st ⟨str "src " ++ F ++ str "\n" ++ S, tg⟩).next_tag
      ∧ (exec_task fs st ⟨str "src " ++ F ++ str "\n" ++ S, tg⟩).task_buffer
          = st.task_buffer ++ ⟨cF, st.next_tag⟩ :: qs
      ∧ (∀ t ∈ qs, st.next_tag + 1 ≤ t.tag
          ∧ t.tag < (exec_task fs st ⟨str "src " ++ F ++ str "\n" ++ S, tg⟩).next_tag)
      ∧ (exec_task fs st ⟨str "src " ++ F ++ str "\n" ++ S, tg⟩).trace = st.trace ++ Δ
      ∧ (∀ e ∈ Δ, event_tag e = tg)
      ∧ ∃ Δ2, Δ.filter is_dispatch
          = ((str "src " ++ F) :: string_split '\n' S).map (event_t.dispatch tg) ++ Δ2 := by
  have hsplit : string_split '\n' (str "src " ++ F ++ str "\n" ++ S)
      = (str "src " ++ F) :: string_split '\n' S := by
    have h1 : str "src " ++ F ++ str "\n" ++ S = (str "src " ++ F) ++ '\n' :: S := by
      rw [List.append_assoc]
      rfl
    rw [h1, string_split_append '\n' (str "src " ++ F) S ?hmem]
    case hmem =>
      intro h
      rcases List.mem_append.mp h with h | h
      · revert h; decide
      · exact hF2 h
  have hldB : (List.foldl run_definer
      { exec_task_stage0 st ⟨str "src " ++ F ++ str "\n" ++ S, tg⟩ with
        loaded_commands := [] }
      [definer_t.lang_preprocessor]).loaded_commands = lang_preproc_commands := by
    simp [List.foldl, run_definer, define_command, lang_preproc_commands]
  have e1 : exec_task_stage1 fs st ⟨str "src " ++ F ++ str "\n" ++ S, tg⟩
      = direct_exec_from fs
          (List.foldl run_definer
            { exec_task_stage0 st ⟨str "src " ++ F ++ str "\n" ++ S, tg⟩ with
              loaded_commands := [] }
            [definer_t.lang_preprocessor]) 0
          ((str "src " ++ F) :: string_split '\n' S) := by
    show command_pass fs (exec_task_stage0 st ⟨str "src " ++ F ++ str "\n" ++ S, tg⟩)
        (exec_task_stage0 st ⟨str "src " ++ F ++ str "\n" ++ S, tg⟩).additional_preprocessors
        (string_split '\n' (str "src " ++ F ++ str "\n" ++ S)) = _
    rw [hsplit,
      show (exec_task_stage0 st ⟨str "src " ++ F ++ str "\n" ++ S, tg⟩).additional_preprocessors
        = [definer_t.lang_preprocessor] from hpre]
    rfl
  obtain ⟨qs1, Δ1, hap1, hac1, htk1, hbs1, hnx1, hbuf1, hfr1, hctB, htr1, hev1, hfl1⟩ :=
    preproc_pass_src fs F cF S hF1 hread
      (List.foldl run_definer
        { exec_task_stage0 st ⟨str "src " ++ F ++ str "\n" ++ S, tg⟩ with
          loaded_commands := [] }
        [definer_t.lang_preprocessor]) hldB
  rw [← e1] at hap1 hac1 htk1 hbs1 hnx1 hbuf1 hfr1 hctB htr1
  obtain ⟨hf2, Δ2, ht2, he2⟩ :=
    auto_preprocessors_frame fs (exec_task_stage1 fs st ⟨str "src " ++ F ++ str "\n" ++ S, tg⟩)
  have hs2 : exec_task_stage2 fs st ⟨str "src " ++ F ++ str "\n" ++ S, tg⟩
      = auto_preprocessors fs (exec_task_stage1 fs st ⟨str "src " ++ F ++ str "\n" ++ S, tg⟩) := rfl
  rw [← hs2] at hf2 ht2
  have hf2x : frame_core (exec_task_stage2 fs st ⟨str "src " ++ F ++ str "\n" ++ S, tg⟩)
      { exec_task_stage2 fs st ⟨str "src " ++ F ++ str "\n" ++ S, tg⟩ with
        current_script := string_split_residue '\n'
          (exec_task_stage2 fs st ⟨str "src " ++ F ++ str "\n" ++ S, tg⟩).current_script } :=
    ⟨rfl, rfl, rfl, rfl, rfl, le_rfl, ext_nil_buffer _ _ rfl⟩
  obtain ⟨hf3, Δ3, ht3, he3, hd3⟩ := command_pass_frame fs
    { exec_task_stage2 fs st ⟨str "src " ++ F ++ str "\n" ++ S, tg⟩ with
      current_script := string_split_residue '\n'
        (exec_task_stage2 fs st ⟨str "src " ++ F ++ str "\n" ++ S, tg⟩).current_script }
    (exec_task_stage2 fs st ⟨str "src " ++ F ++ str "\n" ++ S, tg⟩).additional_commands
    (string_split '\n' (exec_task_stage2 fs st ⟨str "src " ++ F ++ str "\n" ++ S, tg⟩).current_script)
  rw [← exec_task_eq_stages fs st ⟨str "src " ++ F ++ str "\n" ++ S, tg⟩] at hf3 ht3
  have hfLate : frame_core (exec_task_stage1 fs st ⟨str "src " ++ F ++ str "\n" ++ S, tg⟩)
      (exec_task fs st ⟨str "src " ++ F ++ str "\n" ++ S, tg⟩) :=
    frame_core_trans hf2 (frame_core_trans hf2x hf3)
  obtain ⟨lap, lac, ltk, lbs, lct, lnx, qsL, lq, lfr⟩ := hfLate
  have hct1 : (exec_task_stage1 fs st ⟨str "src " ++ F ++ str "\n" ++ S, tg⟩).current_tag = tg := hctB
  have htrL : (exec_task fs st ⟨str "src " ++ F ++ str "\n" ++ S, tg⟩).trace
      = (exec_task_stage1 fs st ⟨str "src " ++ F ++ str "\n" ++ S, tg⟩).trace ++ (Δ2 ++ Δ3) := by
    have ht3x : (exec_task fs st ⟨str "src " ++ F ++ str "\n" ++ S, tg⟩).trace
        = (exec_task_stage2 fs st ⟨str "src " ++ F ++ str "\n" ++ S, tg⟩).trace ++ Δ3 := ht3
    rw [ht3x, ht2, List.append_assoc]
  refine ⟨qs1 ++ qsL, Δ1 ++ (Δ2 ++ Δ3), lap.trans hap1, lac.trans hac1,
    ltk.trans htk1, lbs.trans hbs1, le_trans hnx1 lnx, ?_, ?_, ?_, ?_, ?_⟩
  · rw [lq, hbuf1]
    simp [run_definer, define_command, exec_task_stage0, List.append_assoc]
  · intro t ht
    rcases List.mem_append.mp ht with h | h
    · obtain ⟨hl, hr⟩ := hfr1 t h
      exact ⟨hl, lt_of_lt_of_le hr lnx⟩
    · obtain ⟨hl, hr⟩ := lfr t h
      exact ⟨le_trans hnx1 hl, hr⟩
  · rw [htrL, htr1]
    simp [run_definer, define_command, exec_task_stage0, List.append_assoc]
  · intro e he
    rcases List.mem_append.mp he with h | h
    · exact hev1 e h
    · rcases List.mem_append.mp h with h | h
      · exact (he2 e h).trans hct1
      · have he3x : event_tag e
            = (exec_task_stage2 fs st ⟨str "src " ++ F ++ str "\n" ++ S, tg⟩).current_tag :=
          he3 e h
        rw [he3x, hf2.2.2.2.2.1, hct1]
  · refine ⟨Δ2.filter is_dispatch ++ Δ3.filter is_dispatch, ?_⟩
    rw [List.filter_append, List.filter_append, hfl1]
    simp [run_definer, define_command, exec_task_stage0, List.append_assoc]

end DSSModel

namespace DSSModel

theorem exec_tasks_round_facts (fs : fs_t) :
    ∀ (ts : List task_t) (st : ExecState),
      (exec_tasks_round fs st ts).additional_preprocessors = st.additional_preprocessors
      ∧ (exec_tasks_round fs st ts).additional_commands = st.additional_commands
      ∧ (exec_tasks_round fs st ts).tasks = st.tasks
      ∧ (exec_tasks_round fs st ts).busy = st.busy
      ∧ st.next_tag ≤ (exec_tasks_round fs st ts).next_tag
      ∧ (∃ qs, (exec_tasks_round fs st ts).task_buffer = st.task_buffer ++ qs
          ∧ ∀ t ∈ qs, st.next_tag ≤ t.tag ∧ t.tag < (exec_tasks_round fs st ts).next_tag)
      ∧ ∃ Δ, (exec_tasks_round fs st ts).trace = st.trace ++ Δ
          ∧ ∀ e ∈ Δ, event_tag e ∈ ts.map task_t.tag := by
  intro ts
  induction ts with
  | nil =>
    intro st
    exact ⟨rfl, rfl, rfl, rfl, le_rfl, ext_nil_buffer st st rfl, [],
      by simp [exec_tasks_round], by simp⟩
  | cons t ts ih =>
    intro st
    simp only [exec_tasks_round]
    obtain ⟨a1, b1, c1, d1, n1, ⟨q1, hq1, hf1⟩, Δ1, ht1, he1, _⟩ := exec_task_frame fs st t
    obtain ⟨a2, b2, c2, d2, n2, ⟨q2, hq2, hf2⟩, Δ2, ht2, he2⟩ := ih (exec_task fs st t)
    refine ⟨a2.trans a1, b2.trans b1, c2.trans c1, d2.trans d1, le_trans n1 n2,
      ⟨q1 ++ q2, ?_, ?_⟩, Δ1 ++ Δ2, ?_, ?_⟩
    · rw [hq2, hq1, List.append_assoc]
    · intro x hx
      rcases List.mem_append.mp hx with h | h
      · obtain ⟨hl, hr⟩ := hf1 x h
        exact ⟨hl, lt_of_lt_of_le hr n2⟩
      · obtain ⟨hl, hr⟩ := hf2 x h
        exact ⟨le_trans n1 hl, hr⟩
    · rw [ht2, ht1, List.append_assoc]
    · intro e he
      rcases List.mem_append.mp he with h | h
      · rw [List.map_cons, he1 e h]
        exact List.mem_cons_self _ _
      · rw [List.map_cons]
        exact List.mem_cons_of_mem _ (he2 e h)

theorem exec_all_tasks_step (fs : fs_t) (fuel : Nat) (st : ExecState)
    (h1 : ¬(st.tasks.length = 0)) (h2 : st.busy = false) :
    exec_all_tasks fs (fuel + 1) true st
      = exec_all_tasks fs fuel true
        { exec_tasks_round fs { st with busy := true } st.tasks with
          busy := false
          tasks := (exec_tasks_round fs { st with busy := true } st.tasks).task_buffer
          task_buffer := [] } := by
  have h2x : ¬(st.busy = true) := by
    rw [h2]
    exact Bool.false_ne_true
  simp only [exec_all_tasks]
  rw [if_neg h1, if_neg h2x]
  simp only [if_true]

theorem exec_all_tasks_nonzero (fs : fs_t) :
    ∀ (fuel : Nat) (st : ExecState),
      (∀ t ∈ st.tasks, t.tag ≠ 0) → (∀ t ∈ st.task_buffer, t.tag ≠ 0) →
      1 ≤ st.next_tag →
      ∃ Δ, (exec_all_tasks fs fuel true st).trace = st.trace ++ Δ
        ∧ ∀ e ∈ Δ, event_tag e ≠ 0 := by
  intro fuel
  induction fuel with
  | zero =>
    intro st _ _ _
    exact ⟨[], by simp [exec_all_tasks], by simp⟩
  | succ fuel ih =>
    intro st hts hbuf hnx
    simp only [exec_all_tasks]
    by_cases h1 : st.tasks.length = 0
    · rw [if_pos h1]
      exact ⟨[], by simp, by simp⟩
    · rw [if_neg h1]
      by_cases h2 : st.busy = true
      · rw [if_pos h2]
        exact ⟨[], by simp, by simp⟩
      · rw [if_neg h2]
        obtain ⟨a, b, c, d, n, ⟨qs, hq, hf⟩, Δ1, ht1, he1⟩ :=
          exec_tasks_round_facts fs st.tasks { st with busy := true }
        set stR := exec_tasks_round fs { st with busy := true } st.tasks with hstR
        obtain ⟨Δ2, ht2, he2⟩ := ih
          { stR with
            busy := false
            tasks := stR.task_buffer
            task_buffer := [] }
          (by
            intro t ht
            have hm : t ∈ st.task_buffer ++ qs := by
              have : ({ stR with
                busy := false
                tasks := stR.task_buffer
                task_buffer := [] } : ExecState).tasks = st.task_buffer ++ qs := hq
              rw [← this]
              exact ht
            rcases List.mem_append.mp hm with h | h
            · exact hbuf t h
            · obtain ⟨hl, _⟩ := hf t h
              have hl2 : st.next_tag ≤ t.tag := hl
              omega)
          (by intro t ht; exact absurd ht (List.not_mem_nil t))
          (le_trans hnx n)
        refine ⟨Δ1 ++ Δ2, ?_, ?_⟩
        · show (exec_all_tasks fs fuel true
            { stR with
              busy := false
              tasks := stR.task_buffer
              task_buffer := [] }).trace = st.trace ++ (Δ1 ++ Δ2)
          rw [ht2]
          have htR : stR.trace = st.trace ++ Δ1 := ht1
          rw [show ({ stR with
              busy := false
              tasks := stR.task_buffer
              task_buffer := [] } : ExecState).trace = stR.trace from rfl, htR,
            List.append_assoc]
        · intro e he
          rcases List.mem_append.mp he with h | h
          · obtain ⟨t, htm, htag⟩ := List.mem_map.mp (he1 e h)
            rw [← htag]
            exact hts t htm
          · exact he2 e h

set_option maxHeartbeats 4000000 in
/-- C5: task execution across sourcing is level-order.  When the root
executor runs a script whose first statement sources a readable file F
and whose remaining statements are S, the event trace splits into a
prefix A recorded entirely under the submitted task's tag 0 and a
suffix B recorded entirely under later tags: every statement of S is
dispatched inside A (after the `src` line, in order), while the
statements of F's contents are dispatched only inside B, under the
buffered task's fresh tag 1 — the handler-queued task enters the
separate buffer and is spliced in only after the current queue snapshot
finishes. -/
theorem C5_level_order (fs : fs_t) (fuel : Nat) (F S cF : Str)
    (hF1 : ' ' ∉ F) (hF2 : '\n' ∉ F) (hread : fs.read F = some cF)
    (hfuel : 2 ≤ fuel) :
    ∃ A B,
      (exec fs fuel init_state (str "src " ++ F ++ str "\n" ++ S)).trace = A ++ B
      ∧ (∀ e ∈ A, event_tag e = 0)
      ∧ (∀ e ∈ B, event_tag e ≠ 0)
      ∧ (∃ A2, A.filter is_dispatch
          = ((str "src " ++ F) :: string_split '\n' S).map (event_t.dispatch 0) ++ A2)
      ∧ (∃ B2, B.filter is_dispatch
          = (string_split '\n' cF).map (event_t.dispatch 1) ++ B2) := by
  obtain ⟨f, rfl⟩ : ∃ f, fuel = f + 1 + 1 := ⟨fuel - 2, by omega⟩
  obtain ⟨qs, ΔT, _, _, _, _, hnx, hbuf, hqs, htr, het, ΔT2, hdf⟩ :=
    exec_task_src_first fs (C5_round1_state F S) F cF S 0 rfl hF1 hF2 hread
  have hQ_next : (C5_round1_state F S).next_tag = 1 := rfl
  have hQ_buf : (C5_round1_state F S).task_buffer = [] := rfl
  have hQ_trace : (C5_round1_state F S).trace = [] := rfl
  have hP_tasks : (C5_round2_state fs F S).tasks
      = (exec_task fs (C5_round1_state F S)
          ⟨str "src " ++ F ++ str "\n" ++ S, 0⟩).task_buffer := rfl
  have hP_trace : (C5_round2_state fs F S).trace
      = (exec_task fs (C5_round1_state F S)
          ⟨str "src " ++ F ++ str "\n" ++ S, 0⟩).trace := rfl
  have hP_next : (C5_round2_state fs F S).next_tag
      = (exec_task fs (C5_round1_state F S)
          ⟨str "src " ++ F ++ str "\n" ++ S, 0⟩).next_tag := rfl
  have hP_busy : (C5_round2_state fs F S).busy = false := rfl
  have hP_buf : (C5_round2_state fs F S).task_buffer = [] := rfl
  have htasks : (C5_round2_state fs F S).tasks = ⟨cF, 1⟩ :: qs := by
    rw [hP_tasks, hbuf, hQ_buf, hQ_next, List.nil_append]
  have hnxS : 2 ≤ (C5_round2_state fs F S).next_tag := by
    rw [hP_next]
    have h := hnx
    rw [hQ_next] at h
    omega
  have htr2 : (C5_round2_state fs F S).trace = ΔT := by
    rw [hP_trace, htr, hQ_trace, List.nil_append]
  have htSub : (C5_submit_state F S).tasks
      = [⟨str "src " ++ F ++ str "\n" ++ S, 0⟩] := rfl
  have ha : exec fs (f + 1 + 1) init_state (str "src " ++ F ++ str "\n" ++ S)
      = exec_all_tasks fs (f + 1 + 1) true (C5_submit_state F S) := by
    simp only [exec]
    rfl
  have hb := exec_all_tasks_step fs (f + 1) (C5_submit_state F S)
    (by rw [htSub]; simp) rfl
  have hR0 : exec_tasks_round fs { C5_submit_state F S with busy := true }
      (C5_submit_state F S).tasks
      = exec_task fs (C5_round1_state F S) ⟨str "src " ++ F ++ str "\n" ++ S, 0⟩ := by
    rw [htSub]
    simp only [exec_tasks_round]
    rfl
  rw [hR0] at hb
  have hc : ({ exec_task fs (C5_round1_state F S) ⟨str "src " ++ F ++ str "\n" ++ S, 0⟩ with
      busy := false
      tasks := (exec_task fs (C5_round1_state F S)
        ⟨str "src " ++ F ++ str "\n" ++ S, 0⟩).task_buffer
      task_buffer := [] } : ExecState) = C5_round2_state fs F S := rfl
  rw [hc] at hb
  have e1 := ha.trans hb
  have hlen : ¬((C5_round2_state fs F S).tasks.length = 0) := by
    rw [htasks]
    simp
  have hb2 := exec_all_tasks_step fs f (C5_round2_state fs F S) hlen hP_busy
  have hR2 : exec_tasks_round fs { C5_round2_state fs F S with busy := true }
      (C5_round2_state fs F S).tasks
      = C5_round2_run fs F S cF qs := by
    rw [htasks]
    simp only [exec_tasks_round]
    rfl
  rw [hR2] at hb2
  have hc2 : ({ C5_round2_run fs F S cF qs with
      busy := false
      tasks := (C5_round2_run fs F S cF qs).task_buffer
      task_buffer := [] } : ExecState) = C5_round3_state fs F S cF qs := rfl
  rw [hc2] at hb2
  obtain ⟨_, _, _, _, nF, ⟨q1, hq1, hf1⟩, ΔF, htF, heF, ΔF2, hdF⟩ :=
    exec_task_frame fs { C5_round2_state fs F S with busy := true } ⟨cF, 1⟩
  have hU_next : ({ C5_round2_state fs F S with busy := true } : ExecState).next_tag
      = (C5_round2_state fs F S).next_tag := rfl
  have hU_buf : ({ C5_round2_state fs F S with busy := true } : ExecState).task_buffer
      = (C5_round2_state fs F S).task_buffer := rfl
  have hU_trace : ({ C5_round2_state fs F S with busy := true } : ExecState).trace
      = (C5_round2_state fs F S).trace := rfl
  have nF2 : (C5_round2_state fs F S).next_tag ≤ (C5_head2 fs F S cF).next_tag := by
    have h : ({ C5_round2_state fs F S with busy := true } : ExecState).next_tag
        ≤ (C5_head2 fs F S cF).next_tag := nF
    rw [hU_next] at h
    exact h
  have hq1b : (C5_head2 fs F S cF).task_buffer = q1 := by
    have h : (C5_head2 fs F S cF).task_buffer
        = ({ C5_round2_state fs F S with busy := true } : ExecState).task_buffer ++ q1 := hq1
    rw [hU_buf, hP_buf, List.nil_append] at h
    exact h
  have htF2x : (C5_head2 fs F S cF).trace = ΔT ++ ΔF := by
    have h : (C5_head2 fs F S cF).trace
        = ({ C5_round2_state fs F S with busy := true } : ExecState).trace ++ ΔF := htF
    rw [hU_trace, htr2] at h
    exact h
  have hdF2 : ΔF.filter is_dispatch
      = (string_split '\n' cF).map (event_t.dispatch 1) ++ ΔF2 := hdF
  obtain ⟨_, _, _, _, n2, ⟨q2, hq2, hf2⟩, Δq, htq, heq⟩ :=
    exec_tasks_round_facts fs qs (C5_head2 fs F S cF)
  have hrunb : (C5_round2_run fs F S cF qs).task_buffer = q1 ++ q2 := by
    simp only [C5_round2_run]
    rw [hq2, hq1b]
  have hrunt : (C5_round2_run fs F S cF qs).trace = (ΔT ++ ΔF) ++ Δq := by
    simp only [C5_round2_run]
    rw [htq, htF2x]
  have hrunn : 2 ≤ (C5_round2_run fs F S cF qs).next_tag := by
    simp only [C5_round2_run]
    exact le_trans (le_trans hnxS nF2) n2
  have htasks3 : (C5_round3_state fs F S cF qs).tasks = q1 ++ q2 := hrunb
  have htr3 : (C5_round3_state fs F S cF qs).trace = (ΔT ++ ΔF) ++ Δq := hrunt
  have hnx3 : 2 ≤ (C5_round3_state fs F S cF qs).next_tag := hrunn
  obtain ⟨Δrest, htrest, herest⟩ :=
    exec_all_tasks_nonzero fs f (C5_round3_state fs F S cF qs)
      (by
        intro t ht
        rw [htasks3] at ht
        rcases List.mem_append.mp ht with h | h
        · have h2 : ({ C5_round2_state fs F S with busy := true } : ExecState).next_tag
              ≤ t.tag := (hf1 t h).1
          rw [hU_next] at h2
          omega
        · have h2 : (C5_head2 fs F S cF).next_tag ≤ t.tag := (hf2 t h).1
          have h3 : 2 ≤ (C5_head2 fs F S cF).next_tag := le_trans hnxS nF2
          omega)
      (by
        intro t ht
        have ht2 : t ∈ ([] : List task_t) := ht
        exact absurd ht2 (List.not_mem_nil t))
      (by omega)
  refine ⟨ΔT, ΔF ++ (Δq ++ Δrest), ?_, het, ?_, ⟨ΔT2, hdf⟩, ?_⟩
  · rw [e1, hb2, htrest, htr3]
    simp [List.append_assoc]
  · intro e he
    rcases List.mem_append.mp he with h | h
    · have h1 : event_tag e = 1 := heF e h
      omega
    · rcases List.mem_append.mp h with h | h
      · obtain ⟨t, htm, htag⟩ := List.mem_map.mp (heq e h)
        have h4 := (hqs t htm).1
        rw [hQ_next] at h4
        omega
      · exact herest e h
  · refine ⟨ΔF2 ++ (Δq ++ Δrest).filter is_dispatch, ?_⟩
    rw [List.filter_append, hdF2, List.append_assoc]

theorem C5_level_order_witness :
    (' ' ∉ str "f.dss") ∧ ('\n' ∉ str "f.dss")
    ∧ fs_single.read (str "f.dss") = some (str "out hi")
    ∧ 2 ≤ 2
    ∧ ∃ A B,
      (exec fs_single 2 init_state
          (str "src " ++ str "f.dss" ++ str "\n" ++ str "out bye")).trace = A ++ B
      ∧ (∀ e ∈ A, event_tag e = 0)
      ∧ (∀ e ∈ B, event_tag e ≠ 0)
      ∧ (∃ A2, A.filter is_dispatch
          = ((str "src " ++ str "f.dss") :: string_split '\n' (str "out bye")).map
              (event_t.dispatch 0) ++ A2)
      ∧ (∃ B2, B.filter is_dispatch
          = (string_split '\n' (str "out hi")).map (event_t.dispatch 1) ++ B2) :=
  ⟨by decide, by decide, rfl, by decide,
    C5_level_order fs_single 2 (str "f.dss") (str "out bye") (str "out hi")
      (by decide) (by decide) rfl (by decide)⟩

end DSSModel
